import Mathlib

/-!
Verification of the schema-migration engine in `backend/pkg/migrate/migrate.go`.

The Go code is shallowly embedded:
* the migration set is a `List Migration`, filled by `loadMigrations` exactly as the
  Go loader fills its pre-sized slice (including the fixed slice size
  `fileCount/2 + 5`; a Go index-out-of-range panic is modelled as the distinguished
  outcome `LoadResult.panicIdx` / `MigrateError.panicIdx`);
* the database is a `DBState σ`: the `migrations` tracking table is
  `Option (List Int)` (`none` = the table does not exist, which PostgreSQL reports as
  error 42P01), plus an abstract schema state `σ` acted on by an abstract statement
  executor `exec : String → σ → Option σ` (`none` = the SQL statement failed);
* a cancellable context is `ctx : Nat → Bool` read at an explicit check counter
  (`clock`), one tick per `ctx.Err()` call in the Go code;
* every operation also returns a `trace` of observable events: Applier invocations,
  SQL statements submitted for execution, and context checks.  A transaction that is
  rolled back leaves the `DBState` unchanged but its submitted statements stay in the
  trace (they did run before the rollback).

Strings are handled character-wise; Go slices the first six *bytes* of a file name
and `len` counts bytes, which coincides with the character view on ASCII names.
`goIsSpace` mirrors `unicode.IsSpace` (Latin-1 range plus the Unicode White_Space
code points), `atoi` mirrors `strconv.Atoi` on six-character inputs, and `splitSemi`
mirrors `strings.Split(sql, ";")`.
-/

structure Migration where
  Version : Int
  UpSQL : String
  DownSQL : String
deriving DecidableEq, Repr

def zeroMig : Migration := ⟨0, "", ""⟩

structure DirEntry where
  name : String
  isDir : Bool
deriving DecidableEq, Repr

inductive LoadErr where
  | dirRead
  | fileRead (name : String)
  | noValidFiles
  | missingUp (version : Nat)
deriving DecidableEq, Repr

inductive LoadLoopRes where
  | ok (migs : List Migration) (maxV : Int)
  | err (e : LoadErr)
  | panicIdx (idx : Int)
deriving DecidableEq, Repr

inductive LoadResult where
  | ok (migrations : List Migration)
  | err (e : LoadErr)
  | panicIdx (idx : Int)
deriving DecidableEq, Repr

/-- Go `unicode.IsSpace`: ASCII whitespace, U+0085, U+00A0 and the
Unicode White_Space code points above U+00FF. -/
def goIsSpace (c : Char) : Bool :=
  c = ' ' || c = '\t' || c = '\n' || c = '\r' ||
  c.toNat = 0x0b || c.toNat = 0x0c ||
  c.toNat = 0x85 || c.toNat = 0xa0 || c.toNat = 0x1680 ||
  (0x2000 ≤ c.toNat && c.toNat ≤ 0x200a) ||
  c.toNat = 0x2028 || c.toNat = 0x2029 || c.toNat = 0x202f ||
  c.toNat = 0x205f || c.toNat = 0x3000

/-- Go `strings.TrimSpace`. -/
def goTrim (s : String) : String :=
  ⟨((s.data.dropWhile goIsSpace).reverse.dropWhile goIsSpace).reverse⟩

/-- `baseName[:6]`, character-wise. -/
def takeCh (s : String) (n : Nat) : String := ⟨s.data.take n⟩

/-- Go `strings.HasSuffix`, character-wise. -/
def endsWithCh (s suf : String) : Bool := suf.data.isSuffixOf s.data

/-- The `.up.sql` / `.down.sql` switch in `loadMigrations`:
`some true` for an up file, `some false` for a down file, `none` to skip. -/
def suffixKind (name : String) : Option Bool :=
  if endsWithCh name ".up.sql" then some true
  else if endsWithCh name ".down.sql" then some false
  else none

def digitsValAux : List Char → Nat → Option Nat
  | [], acc => some acc
  | c :: rest, acc =>
    if c.isDigit then digitsValAux rest (acc * 10 + (c.toNat - 48)) else none

def digitsVal : List Char → Option Nat
  | [] => none
  | l => digitsValAux l 0

/-- Go `strconv.Atoi` (no overflow on six-character inputs). -/
def atoi (s : String) : Option Int :=
  match s.data with
  | '+' :: rest => (digitsVal rest).map (fun n => (n : Int))
  | '-' :: rest => (digitsVal rest).map (fun n => -(n : Int))
  | l => (digitsVal l).map (fun n => (n : Int))

def splitSemiAux : List Char → List Char → List String
  | [], acc => [⟨acc.reverse⟩]
  | c :: rest, acc =>
    if c = ';' then (⟨acc.reverse⟩ : String) :: splitSemiAux rest []
    else splitSemiAux rest (c :: acc)

/-- Go `strings.Split(sql, ";")`. -/
def splitSemi (s : String) : List String := splitSemiAux s.data []

/-- Whether an entry passes all the skip checks of the loader's loop
(not a directory, name at least six characters, numeric prefix, known suffix). -/
def validFileB (e : DirEntry) : Bool :=
  !e.isDir && decide (6 ≤ e.name.data.length) &&
  (atoi (takeCh e.name 6)).isSome && (suffixKind e.name).isSome

/-- The body of the `for _, entry := range entries` loop of `loadMigrations`.
`migs` is the pre-sized slice, `maxV` the running `maxVersion` (initially `-1`).
Indexing `migrations[version]` outside the slice bounds is the Go panic. -/
def loadLoop (readFile : String → Option String) :
    List DirEntry → List Migration → Int → LoadLoopRes
  | [], migs, maxV => .ok migs maxV
  | e :: rest, migs, maxV =>
    if e.isDir then loadLoop readFile rest migs maxV
    else if e.name.data.length < 6 then loadLoop readFile rest migs maxV
    else
      match atoi (takeCh e.name 6) with
      | none => loadLoop readFile rest migs maxV
      | some version =>
        match suffixKind e.name with
        | none => loadLoop readFile rest migs maxV
        | some isUp =>
          if 0 ≤ version ∧ version < (migs.length : Int) then
            let idx := version.toNat
            let migs1 :=
              if migs.getD idx zeroMig == zeroMig then
                migs.set idx ⟨version, "", ""⟩
              else migs
            match readFile e.name with
            | none => .err (.fileRead e.name)
            | some data =>
              let old := migs1.getD idx zeroMig
              let migs2 :=
                if isUp then migs1.set idx ⟨old.Version, data, old.DownSQL⟩
                else migs1.set idx ⟨old.Version, old.UpSQL, data⟩
              loadLoop readFile rest migs2 (if maxV < version then version else maxV)
          else .panicIdx version

/-- The validation loop `for version := 0; version <= maxVersion; version++`:
first version below `k` whose `UpSQL` is empty. -/
def firstMissingUp (migs : List Migration) : Nat → Option Nat
  | 0 => none
  | k + 1 =>
    match firstMissingUp migs k with
    | some i => some i
    | none => if (migs.getD k zeroMig).UpSQL = "" then some k else none

/-- `loadMigrations`: `dir = none` models an unreadable directory. -/
def loadMigrations (dir : Option (List DirEntry))
    (readFile : String → Option String) : LoadResult :=
  match dir with
  | none => .err .dirRead
  | some entries =>
    let size := entries.length / 2 + 5
    match loadLoop readFile entries (List.replicate size zeroMig) (-1) with
    | .err e => .err e
    | .panicIdx v => .panicIdx v
    | .ok migs maxV =>
      if maxV == -1 then .err .noValidFiles
      else
        match firstMissingUp migs (maxV.toNat + 1) with
        | some i => .err (.missingUp i)
        | none => .ok (migs.take (maxV.toNat + 1))

inductive MigrateError where
  | cancelled
  | connectFailed
  | loadFailed (e : LoadErr)
  | panicLoad (idx : Int)
  | emptyScript (version : Int) (isUp : Bool)
  | scriptExec (version : Int) (isUp : Bool) (stmtIndex : Nat)
  | recordFailed (version : Int)
  | removeFailed (version : Int)
  | noMigrations
  | notFound (version : Int)
  | notRevertible (version : Int)
  | panicIdx (idx : Int)
deriving DecidableEq, Repr

/-- Database state: the `migrations` tracking table (`none` when it does not
exist) and the abstract schema state the migration scripts act on. -/
structure DBState (σ : Type) where
  table : Option (List Int)
  schema : σ
deriving DecidableEq, Repr

inductive TraceEv where
  | ctxCheck (cancelled : Bool)
  | applyCall (version : Int) (isUp : Bool)
  | stmt (s : String)
deriving DecidableEq, Repr

/-- Result of a stateful operation: error (`none` = success), database after the
operation, context-check counter, and the event trace. -/
structure MRes (σ : Type) where
  err : Option MigrateError
  db : DBState σ
  clock : Nat
  trace : List TraceEv
deriving DecidableEq, Repr

def ctxNone : Nat → Bool := fun _ => false
def ctxTrue : Nat → Bool := fun _ => true

/-- `SELECT MAX(version)`: `0` for an empty table (SQL NULL). -/
def maxOr0 : List Int → Int
  | [] => 0
  | [x] => x
  | x :: y :: rest => max x (maxOr0 (y :: rest))

/-- The version the store reports: `0` when the table is absent or empty. -/
def curVer (db : DBState σ) : Int :=
  match db.table with
  | none => 0
  | some rows => maxOr0 rows

/-- `GetCurrentVersion`: value (or cancellation error) and the advanced clock. -/
def getCurrentVersion (ctx : Nat → Bool) (clock : Nat) (db : DBState σ) :
    Except MigrateError Int × Nat :=
  if ctx clock then (.error .cancelled, clock + 1)
  else (.ok (curVer db), clock + 1)

/-- `INSERT INTO migrations (version) VALUES ($1) ON CONFLICT (version) DO NOTHING`. -/
def insIfAbsent (v : Int) (rows : List Int) : List Int :=
  if v ∈ rows then rows else rows ++ [v]

/-- The statement loop of `applyMigration`: split pieces are executed in order,
blank pieces are skipped, and a failure reports the 1-based position `i+1` in the
split array.  The trace lists every statement submitted for execution. -/
def runStmts (exec : String → σ → Option σ) :
    List String → Nat → σ → Except Nat σ × List TraceEv
  | [], _, s => (.ok s, [])
  | piece :: rest, i, s =>
    let t := goTrim piece
    if t = "" then runStmts exec rest (i + 1) s
    else
      match exec t s with
      | none => (.error (i + 1), [.stmt t])
      | some s' =>
        let r := runStmts exec rest (i + 1) s'
        (r.1, .stmt t :: r.2)

/-- `applyMigration`: one migration, one direction, one transaction.  On any
error the transaction is rolled back, so the returned database equals the input. -/
def applyMigration (exec : String → σ → Option σ) (ctx : Nat → Bool)
    (clock : Nat) (db : DBState σ) (mig : Migration) (isUp : Bool) : MRes σ :=
  if ctx clock then
    ⟨some .cancelled, db, clock + 1, [.applyCall mig.Version isUp, .ctxCheck true]⟩
  else
    let sql := if isUp then mig.UpSQL else mig.DownSQL
    if goTrim sql = "" then
      ⟨some (.emptyScript mig.Version isUp), db, clock + 1,
        [.applyCall mig.Version isUp, .ctxCheck false]⟩
    else
      let r := runStmts exec (splitSemi sql) 0 db.schema
      let hd : List TraceEv := [.applyCall mig.Version isUp, .ctxCheck false]
      match r.1 with
      | .error i =>
        ⟨some (.scriptExec mig.Version isUp i), db, clock + 1, hd ++ r.2⟩
      | .ok schema' =>
        if isUp then
          match db.table with
          | none => ⟨some (.recordFailed mig.Version), db, clock + 1, hd ++ r.2⟩
          | some rows =>
            ⟨none, ⟨some (insIfAbsent mig.Version rows), schema'⟩, clock + 1, hd ++ r.2⟩
        else
          match db.table with
          | none => ⟨some (.removeFailed mig.Version), db, clock + 1, hd ++ r.2⟩
          | some rows =>
            ⟨none, ⟨some (rows.filter (fun x => x != mig.Version)), schema'⟩,
              clock + 1, hd ++ r.2⟩

/-- The backwards search `for i := len(m.migrations) - 1; i >= 0; i--`. -/
def findLast239 (ms : List Migration) (v : Int) : Option Migration :=
  ms.reverse.find? (fun m => m.Version == v)

/-- The loop of `Up`: `for version := currentVersion + 1; version < len; version++`.
`fuel` is an upper bound on the remaining iterations (callers pass `len + 1`,
which is always sufficient); indexing a negative version is the Go panic. -/
def upFrom (exec : String → σ → Option σ) (ms : List Migration) (ctx : Nat → Bool) :
    Nat → Int → Nat → DBState σ → MRes σ
  | 0, _, clock, db => ⟨none, db, clock, []⟩
  | fuel + 1, version, clock, db =>
    if version < (ms.length : Int) then
      if version < 0 then ⟨some (.panicIdx version), db, clock, []⟩
      else
        let mig := ms.getD version.toNat zeroMig
        if ctx clock then ⟨some .cancelled, db, clock + 1, [.ctxCheck true]⟩
        else
          let r := applyMigration exec ctx (clock + 1) db mig true
          match r.err with
          | some e => ⟨some e, r.db, r.clock, .ctxCheck false :: r.trace⟩
          | none =>
            let rest := upFrom exec ms ctx fuel (version + 1) r.clock r.db
            ⟨rest.err, rest.db, rest.clock, (.ctxCheck false :: r.trace) ++ rest.trace⟩
    else ⟨none, db, clock, []⟩

/-- `Up`. -/
def up (exec : String → σ → Option σ) (ms : List Migration) (ctx : Nat → Bool)
    (clock : Nat) (db : DBState σ) : MRes σ :=
  if ctx clock then ⟨some .cancelled, db, clock + 1, [.ctxCheck true]⟩
  else
    match getCurrentVersion ctx (clock + 1) db with
    | (.error e, c) => ⟨some e, db, c, [.ctxCheck false]⟩
    | (.ok cv, c) =>
      let r := upFrom exec ms ctx (ms.length + 1) (cv + 1) c db
      ⟨r.err, r.db, r.clock, .ctxCheck false :: r.trace⟩

/-- `Down`. -/
def down (exec : String → σ → Option σ) (ms : List Migration) (ctx : Nat → Bool)
    (clock : Nat) (db : DBState σ) : MRes σ :=
  if ctx clock then ⟨some .cancelled, db, clock + 1, [.ctxCheck true]⟩
  else
    match getCurrentVersion ctx (clock + 1) db with
    | (.error e, c) => ⟨some e, db, c, [.ctxCheck false]⟩
    | (.ok cv, c) =>
      if cv = 0 then ⟨some .noMigrations, db, c, [.ctxCheck false]⟩
      else
        match findLast239 ms cv with
        | none => ⟨some (.notFound cv), db, c, [.ctxCheck false]⟩
        | some mig =>
          if goTrim mig.DownSQL = "" then
            ⟨some (.notRevertible cv), db, c, [.ctxCheck false]⟩
          else
            let r := applyMigration exec ctx c db mig false
            ⟨r.err, r.db, r.clock, .ctxCheck false :: r.trace⟩

/-- The `steps > 0` loop of `Steps`.  `rem` is `steps - i`.  Note the loop body
faithfully reproduces `version := currentVersion + 1 + i` where `currentVersion`
was mutated to the previously applied version: the applied versions are
`cv0+1, cv0+3, cv0+6, …`. -/
def stepsPos (exec : String → σ → Option σ) (ms : List Migration) (ctx : Nat → Bool) :
    Nat → Nat → Int → Nat → DBState σ → MRes σ
  | 0, _, _, clock, db => ⟨none, db, clock, []⟩
  | rem + 1, i, cv, clock, db =>
    if cv + 1 + (i : Int) < (ms.length : Int) then
      let version := cv + 1 + (i : Int)
      if version < 0 then ⟨some (.panicIdx version), db, clock, []⟩
      else
        let mig := ms.getD version.toNat zeroMig
        if ctx clock then ⟨some .cancelled, db, clock + 1, [.ctxCheck true]⟩
        else
          let r := applyMigration exec ctx (clock + 1) db mig true
          match r.err with
          | some e => ⟨some e, r.db, r.clock, .ctxCheck false :: r.trace⟩
          | none =>
            let rest := stepsPos exec ms ctx rem (i + 1) version r.clock r.db
            ⟨rest.err, rest.db, rest.clock, (.ctxCheck false :: r.trace) ++ rest.trace⟩
    else ⟨none, db, clock, []⟩

/-- The `steps < 0` loop of `Steps`.  `rem` counts the rollbacks still requested. -/
def stepsNeg (exec : String → σ → Option σ) (ms : List Migration) (ctx : Nat → Bool) :
    Nat → Int → Nat → DBState σ → MRes σ
  | 0, _, clock, db => ⟨none, db, clock, []⟩
  | rem + 1, cv, clock, db =>
    if cv = 0 then ⟨some .noMigrations, db, clock, []⟩
    else if ctx clock then ⟨some .cancelled, db, clock + 1, [.ctxCheck true]⟩
    else
      match findLast239 ms cv with
      | none => ⟨some (.notFound cv), db, clock + 1, [.ctxCheck false]⟩
      | some mig =>
        if goTrim mig.DownSQL = "" then
          ⟨some (.notRevertible cv), db, clock + 1, [.ctxCheck false]⟩
        else
          let r := applyMigration exec ctx (clock + 1) db mig false
          match r.err with
          | some e => ⟨some e, r.db, r.clock, .ctxCheck false :: r.trace⟩
          | none =>
            let rest := stepsNeg exec ms ctx rem (mig.Version - 1) r.clock r.db
            ⟨rest.err, rest.db, rest.clock, (.ctxCheck false :: r.trace) ++ rest.trace⟩

/-- `Steps`. -/
def steps (exec : String → σ → Option σ) (ms : List Migration) (ctx : Nat → Bool)
    (n : Int) (clock : Nat) (db : DBState σ) : MRes σ :=
  if ctx clock then ⟨some .cancelled, db, clock + 1, [.ctxCheck true]⟩
  else
    match getCurrentVersion ctx (clock + 1) db with
    | (.error e, c) => ⟨some e, db, c, [.ctxCheck false]⟩
    | (.ok cv, c) =>
      if 0 < n then
        let r := stepsPos exec ms ctx n.toNat 0 cv c db
        ⟨r.err, r.db, r.clock, .ctxCheck false :: r.trace⟩
      else if n < 0 then
        let r := stepsNeg exec ms ctx (-n).toNat cv c db
        ⟨r.err, r.db, r.clock, .ctxCheck false :: r.trace⟩
      else ⟨none, db, c, [.ctxCheck false]⟩

/-- `NewMigrator`: fail fast on a cancelled context, then connect, then load.
A loader panic is propagated as the distinguished `panicLoad` outcome. -/
def newMigrator (ctx : Nat → Bool) (connect : Option Unit) (load : LoadResult) :
    Except MigrateError (List Migration) :=
  if ctx 0 then .error .cancelled
  else
    match connect with
    | none => .error .connectFailed
    | some _ =>
      match load with
      | .ok ms => .ok ms
      | .err e => .error (.loadFailed e)
      | .panicIdx v => .error (.panicLoad v)

/-- The Applier invocations recorded in a trace, in order. -/
def applyCalls : List TraceEv → List (Int × Bool)
  | [] => []
  | .applyCall v u :: rest => (v, u) :: applyCalls rest
  | _ :: rest => applyCalls rest

/-- A trace consisting only of submitted SQL statements. -/
def allStmt : List TraceEv → Bool
  | [] => true
  | .stmt _ :: rest => allStmt rest
  | _ :: _ => false

/-- Whether any SQL statement was submitted. -/
def hasStmt : List TraceEv → Bool
  | [] => false
  | .stmt _ :: _ => true
  | _ :: rest => hasStmt rest

/-- No context check in the trace observed cancellation. -/
def noCancelCheck : List TraceEv → Bool
  | [] => true
  | .ctxCheck true :: _ => false
  | _ :: rest => noCancelCheck rest

/-- Once a context check observes cancellation, nothing further happens:
a `ctxCheck true` event can only be the last event of the trace. -/
def noEventsAfterCancel : List TraceEv → Bool
  | [] => true
  | .ctxCheck true :: rest => rest.isEmpty
  | _ :: rest => noEventsAfterCancel rest

/-- Every Applier invocation is immediately preceded by a context check that
observed no cancellation (`prev` is the event just before the current suffix). -/
def callsCheckedFrom : TraceEv → List TraceEv → Bool
  | _, [] => true
  | prev, e :: rest =>
    (match e with
     | .applyCall _ _ => prev == .ctxCheck false
     | _ => true) && callsCheckedFrom e rest

def callsChecked : List TraceEv → Bool
  | [] => true
  | e :: rest =>
    (match e with
     | .applyCall _ _ => false
     | _ => true) && callsCheckedFrom e rest

/-- The loader's postcondition on a successfully loaded set: non-empty, the
record at index `i` carries version `i`, and its up-script is a non-empty string. -/
def loadedSetB (ms : List Migration) : Bool :=
  !ms.isEmpty && (List.range ms.length).all fun i =>
    (ms.getD i zeroMig).Version == (i : Int) && !((ms.getD i zeroMig).UpSQL == "")

def LoadedSet (ms : List Migration) : Prop := loadedSetB ms = true

theorem loadedSet_ne_nil (h : LoadedSet ms) : ms ≠ [] := by
  unfold LoadedSet loadedSetB at h
  rw [Bool.and_eq_true] at h
  intro hnil
  subst hnil
  simp at h

theorem loadedSet_version (h : LoadedSet ms) (i : Nat) (hi : i < ms.length) :
    (ms.getD i zeroMig).Version = (i : Int) := by
  unfold LoadedSet loadedSetB at h
  rw [Bool.and_eq_true, List.all_eq_true] at h
  have := h.2 i (List.mem_range.mpr hi)
  rw [Bool.and_eq_true] at this
  exact beq_iff_eq.mp this.1

theorem loadedSet_upSQL (h : LoadedSet ms) (i : Nat) (hi : i < ms.length) :
    (ms.getD i zeroMig).UpSQL ≠ "" := by
  unfold LoadedSet loadedSetB at h
  rw [Bool.and_eq_true, List.all_eq_true] at h
  have := h.2 i (List.mem_range.mpr hi)
  rw [Bool.and_eq_true] at this
  have h2 := this.2
  simp only [Bool.not_eq_true', beq_eq_false_iff_ne, ne_eq] at h2
  exact h2

theorem maxOr0_concat (rows : List Int) (v : Int) (hv : 0 ≤ v) :
    maxOr0 (rows ++ [v]) = max (maxOr0 rows) v := by
  induction rows with
  | nil => simp [maxOr0]; omega
  | cons x rest ih =>
    cases rest with
    | nil => simp [maxOr0]
    | cons y t =>
      have h1 : maxOr0 ((x :: y :: t) ++ [v]) = max x (maxOr0 ((y :: t) ++ [v])) := rfl
      rw [h1, ih, maxOr0, max_assoc]

theorem maxOr0_le_of_mem (rows : List Int) (x : Int) (hx : x ∈ rows) :
    x ≤ maxOr0 rows := by
  induction rows with
  | nil => cases hx
  | cons a rest ih =>
    cases rest with
    | nil =>
      rcases List.mem_cons.mp hx with h | h
      · subst h; exact le_refl _
      · cases h
    | cons b t =>
      rw [maxOr0]
      rcases List.mem_cons.mp hx with h | h
      · subst h; exact le_max_left _ _
      · exact le_trans (ih h) (le_max_right _ _)

theorem maxOr0_insIfAbsent (rows : List Int) (v : Int) (hv : 0 ≤ v) :
    maxOr0 (insIfAbsent v rows) = max (maxOr0 rows) v := by
  unfold insIfAbsent
  by_cases h : v ∈ rows
  · rw [if_pos h]
    exact (max_eq_left (maxOr0_le_of_mem rows v h)).symm
  · rw [if_neg h]
    exact maxOr0_concat rows v hv

theorem runStmts_total {σ : Type} (exec : String → σ → Option σ)
    (hex : ∀ t s0, (exec t s0).isSome = true) :
    ∀ (l : List String) (i : Nat) (s : σ), ∃ s', (runStmts exec l i s).1 = .ok s' := by
  intro l
  induction l with
  | nil => intro i s; exact ⟨s, rfl⟩
  | cons piece rest ih =>
    intro i s
    rw [runStmts]
    by_cases ht : goTrim piece = ""
    · rw [if_pos ht]; exact ih (i + 1) s
    · rw [if_neg ht]
      have := hex (goTrim piece) s
      cases hcall : exec (goTrim piece) s with
      | none => rw [hcall] at this; simp at this
      | some s1 =>
        obtain ⟨s', hs'⟩ := ih (i + 1) s1
        exact ⟨s', by simp [hcall, hs']⟩

theorem runStmts_allStmt {σ : Type} (exec : String → σ → Option σ) :
    ∀ (l : List String) (i : Nat) (s : σ), allStmt (runStmts exec l i s).2 = true := by
  intro l
  induction l with
  | nil => intro i s; rfl
  | cons piece rest ih =>
    intro i s
    rw [runStmts]
    by_cases ht : goTrim piece = ""
    · rw [if_pos ht]; exact ih (i + 1) s
    · rw [if_neg ht]
      cases hcall : exec (goTrim piece) s with
      | none => rfl
      | some s1 => simpa [allStmt] using ih (i + 1) s1

theorem applyMigration_db_cases {σ : Type} (exec : String → σ → Option σ)
    (ctx : Nat → Bool) (clock : Nat) (db : DBState σ) (mig : Migration)
    (isUp : Bool) :
    (applyMigration exec ctx clock db mig isUp).err = none ∨
    (applyMigration exec ctx clock db mig isUp).db = db := by
  unfold applyMigration
  dsimp only
  repeat' split
  all_goals solve | simp_all

theorem applyMigration_err_db {σ : Type} (exec : String → σ → Option σ)
    (ctx : Nat → Bool) (clock : Nat) (db : DBState σ) (mig : Migration)
    (isUp : Bool) (e : MigrateError)
    (h : (applyMigration exec ctx clock db mig isUp).err = some e) :
    (applyMigration exec ctx clock db mig isUp).db = db := by
  rcases applyMigration_db_cases exec ctx clock db mig isUp with h' | h'
  · rw [h'] at h; cases h
  · exact h'

theorem applyMigration_up_shape {σ : Type} (exec : String → σ → Option σ)
    (ctx : Nat → Bool) (clock : Nat) (rows : List Int) (s : σ) (mig : Migration) :
    (applyMigration exec ctx clock ⟨some rows, s⟩ mig true).err ≠ none ∨
    ∃ s' tr, applyMigration exec ctx clock ⟨some rows, s⟩ mig true =
      ⟨none, ⟨some (insIfAbsent mig.Version rows), s'⟩, clock + 1, tr⟩ := by
  unfold applyMigration
  dsimp only
  repeat' split
  all_goals first | exact Or.inr ⟨_, _, rfl⟩ | (solve | simp_all)

theorem applyMigration_up_ok {σ : Type} (exec : String → σ → Option σ)
    (ctx : Nat → Bool) (clock : Nat) (rows : List Int) (s : σ) (mig : Migration)
    (h : (applyMigration exec ctx clock ⟨some rows, s⟩ mig true).err = none) :
    ∃ s' tr, applyMigration exec ctx clock ⟨some rows, s⟩ mig true =
      ⟨none, ⟨some (insIfAbsent mig.Version rows), s'⟩, clock + 1, tr⟩ := by
  rcases applyMigration_up_shape exec ctx clock rows s mig with h' | h'
  · exact absurd h h'
  · exact h'

theorem applyMigration_up_none_err {σ : Type} (exec : String → σ → Option σ)
    (ctx : Nat → Bool) (clock : Nat) (s : σ) (mig : Migration) :
    (applyMigration exec ctx clock ⟨none, s⟩ mig true).err ≠ none := by
  unfold applyMigration
  dsimp only
  repeat' split
  all_goals solve | simp_all

theorem applyMigration_down_ok {σ : Type} (exec : String → σ → Option σ)
    (ctx : Nat → Bool) (clock : Nat) (rows : List Int) (s : σ) (mig : Migration)
    (hctx : ctx clock = false) (hne : ¬goTrim mig.DownSQL = "")
    (hex : ∀ t s0, (exec t s0).isSome = true) :
    ∃ s' tr, applyMigration exec ctx clock ⟨some rows, s⟩ mig false =
      ⟨none, ⟨some (rows.filter (fun x => x != mig.Version)), s'⟩, clock + 1, tr⟩ := by
  obtain ⟨s', hs'⟩ := runStmts_total exec hex (splitSemi mig.DownSQL) 0 s
  unfold applyMigration
  rw [hctx]
  simp only [Bool.false_eq_true, if_false, if_neg hne]
  rw [hs']
  exact ⟨s', _, rfl⟩

theorem applyMigration_trace_shape {σ : Type} (exec : String → σ → Option σ)
    (ctx : Nat → Bool) (clock : Nat) (db : DBState σ) (mig : Migration)
    (isUp : Bool) :
    ∃ rest, (applyMigration exec ctx clock db mig isUp).trace =
        .applyCall mig.Version isUp :: .ctxCheck (ctx clock) :: rest ∧
      allStmt rest = true ∧ (ctx clock = true → rest = []) := by
  unfold applyMigration
  dsimp only
  repeat' split
  all_goals rename_i hc
  all_goals simp_all
  all_goals first | rfl | exact runStmts_allStmt exec _ 0 db.schema

theorem applyMigration_ok_not_cancelled {σ : Type} (exec : String → σ → Option σ)
    (ctx : Nat → Bool) (clock : Nat) (db : DBState σ) (mig : Migration)
    (isUp : Bool) (h : (applyMigration exec ctx clock db mig isUp).err = none) :
    ctx clock = false := by
  revert h
  unfold applyMigration
  dsimp only
  repeat' split
  all_goals intro h
  all_goals simp_all

theorem applyCalls_append (x y : List TraceEv) :
    applyCalls (x ++ y) = applyCalls x ++ applyCalls y := by
  induction x with
  | nil => rfl
  | cons e rest ih =>
    cases e with
    | ctxCheck b => simpa [applyCalls] using ih
    | applyCall v u => simpa [applyCalls] using ih
    | stmt s => simpa [applyCalls] using ih

theorem allStmt_applyCalls (l : List TraceEv) (h : allStmt l = true) :
    applyCalls l = [] := by
  induction l with
  | nil => rfl
  | cons e rest ih =>
    cases e with
    | ctxCheck b => simp [allStmt] at h
    | applyCall v u => simp [allStmt] at h
    | stmt s => exact ih (by simpa [allStmt] using h)

theorem applyMigration_calls {σ : Type} (exec : String → σ → Option σ)
    (ctx : Nat → Bool) (clock : Nat) (db : DBState σ) (mig : Migration)
    (isUp : Bool) :
    applyCalls (applyMigration exec ctx clock db mig isUp).trace =
      [(mig.Version, isUp)] := by
  obtain ⟨rest, htr, hst, -⟩ := applyMigration_trace_shape exec ctx clock db mig isUp
  rw [htr]
  simp [applyCalls, allStmt_applyCalls rest hst]

theorem allStmt_noCancel (l : List TraceEv) (h : allStmt l = true) :
    noCancelCheck l = true := by
  induction l with
  | nil => rfl
  | cons e rest ih =>
    cases e with
    | ctxCheck b => simp [allStmt] at h
    | applyCall v u => simp [allStmt] at h
    | stmt s => exact ih (by simpa [allStmt] using h)

theorem noCancel_noEvents (l : List TraceEv) (h : noCancelCheck l = true) :
    noEventsAfterCancel l = true := by
  induction l with
  | nil => rfl
  | cons e rest ih =>
    cases e with
    | ctxCheck b =>
      cases b with
      | true => simp [noCancelCheck] at h
      | false => exact ih (by simpa [noCancelCheck] using h)
    | applyCall v u => exact ih (by simpa [noCancelCheck] using h)
    | stmt s => exact ih (by simpa [noCancelCheck] using h)

theorem noCancel_append (x y : List TraceEv) (hx : noCancelCheck x = true)
    (hy : noEventsAfterCancel y = true) : noEventsAfterCancel (x ++ y) = true := by
  induction x with
  | nil => exact hy
  | cons e rest ih =>
    cases e with
    | ctxCheck b =>
      cases b with
      | true => simp [noCancelCheck] at hx
      | false => exact ih (by simpa [noCancelCheck] using hx)
    | applyCall v u => exact ih (by simpa [noCancelCheck] using hx)
    | stmt s => exact ih (by simpa [noCancelCheck] using hx)

theorem allStmt_ccf (l : List TraceEv) (h : allStmt l = true) :
    ∀ q, callsCheckedFrom q l = true := by
  induction l with
  | nil => intro q; rfl
  | cons e rest ih =>
    cases e with
    | ctxCheck b => simp [allStmt] at h
    | applyCall v u => simp [allStmt] at h
    | stmt s =>
      intro q
      simpa [callsCheckedFrom] using ih (by simpa [allStmt] using h) (.stmt s)

theorem ccf_append (x y : List TraceEv) (q : TraceEv)
    (hx : callsCheckedFrom q x = true) (hy : ∀ p, callsCheckedFrom p y = true) :
    callsCheckedFrom q (x ++ y) = true := by
  induction x generalizing q with
  | nil => exact hy q
  | cons e rest ih =>
    cases e with
    | ctxCheck b =>
      simp only [List.cons_append, callsCheckedFrom, Bool.true_and] at hx ⊢
      exact ih _ hx
    | applyCall v u =>
      simp only [List.cons_append, callsCheckedFrom, Bool.and_eq_true] at hx ⊢
      exact ⟨hx.1, ih _ hx.2⟩
    | stmt s =>
      simp only [List.cons_append, callsCheckedFrom, Bool.true_and] at hx ⊢
      exact ih _ hx

theorem loadedSet_version_int (ms : List Migration) (hms : LoadedSet ms) (v : Int)
    (h0 : 0 ≤ v) (h1 : v < (ms.length : Int)) :
    (ms.getD v.toNat zeroMig).Version = v := by
  have hlt : v.toNat < ms.length := by omega
  rw [loadedSet_version hms v.toNat hlt]
  omega

theorem upFrom_ok_max {σ : Type} (exec : String → σ → Option σ)
    (ms : List Migration) (ctx : Nat → Bool) (hms : LoadedSet ms) :
    ∀ (fuel : Nat) (v0 : Int) (clock : Nat) (rows : List Int) (s : σ),
      0 ≤ v0 → v0 ≤ (ms.length : Int) → (ms.length : Int) ≤ v0 + fuel →
      (upFrom exec ms ctx fuel v0 clock ⟨some rows, s⟩).err = none →
      ∃ rows' s',
        (upFrom exec ms ctx fuel v0 clock ⟨some rows, s⟩).db = ⟨some rows', s'⟩ ∧
        maxOr0 rows' =
          if v0 < (ms.length : Int) then max (maxOr0 rows) ((ms.length : Int) - 1)
          else maxOr0 rows := by
  intro fuel
  induction fuel with
  | zero =>
    intro v0 clock rows s h0 h1 h2 hok
    rw [upFrom]
    exact ⟨rows, s, rfl, by rw [if_neg (by omega)]⟩
  | succ fuel ih =>
    intro v0 clock rows s h0 h1 h2 hok
    rw [upFrom] at hok ⊢
    by_cases hlt : v0 < (ms.length : Int)
    · rw [if_pos hlt, if_neg (by omega : ¬v0 < 0)] at hok ⊢
      dsimp only at hok ⊢
      by_cases hc : ctx clock = true
      · rw [if_pos hc] at hok; simp at hok
      · rw [if_neg hc] at hok ⊢
        cases happ : (applyMigration exec ctx (clock + 1) ⟨some rows, s⟩
            (ms.getD v0.toNat zeroMig) true).err with
        | some e => rw [happ] at hok; simp at hok
        | none =>
          obtain ⟨s1, tr1, heq⟩ :=
            applyMigration_up_ok exec ctx (clock + 1) rows s _ happ
          rw [heq] at hok ⊢
          dsimp only at hok ⊢
          have hver : (ms.getD v0.toNat zeroMig).Version = v0 :=
            loadedSet_version_int ms hms v0 h0 hlt
          rw [hver] at hok ⊢
          obtain ⟨rows', s', hdb, hmax⟩ :=
            ih (v0 + 1) (clock + 2) (insIfAbsent v0 rows) s1
              (by omega) (by omega) (by omega) hok
          refine ⟨rows', s', hdb, ?_⟩
          rw [hmax, maxOr0_insIfAbsent rows v0 h0, if_pos hlt]
          by_cases hlt2 : v0 + 1 < (ms.length : Int)
          · rw [if_pos hlt2, max_assoc,
              max_eq_right (by omega : v0 ≤ (ms.length : Int) - 1)]
          · rw [if_neg hlt2]
            have : v0 = (ms.length : Int) - 1 := by omega
            rw [this]
    · rw [if_neg hlt] at hok ⊢
      exact ⟨rows, s, rfl, by rw [if_neg hlt]⟩

theorem upFrom_none_first_err {σ : Type} (exec : String → σ → Option σ)
    (ms : List Migration) (ctx : Nat → Bool) (fuel : Nat) (v0 : Int)
    (clock : Nat) (s : σ) (h0 : 0 ≤ v0) (h1 : v0 < (ms.length : Int))
    (hc : ctx clock = false) :
    (upFrom exec ms ctx (fuel + 1) v0 clock ⟨none, s⟩).err ≠ none := by
  rw [upFrom, if_pos h1, if_neg (by omega : ¬v0 < 0)]
  dsimp only
  rw [if_neg (by rw [hc]; exact Bool.false_ne_true)]
  cases happ : (applyMigration exec ctx (clock + 1) ⟨none, s⟩
      (ms.getD v0.toNat zeroMig) true).err with
  | some e => simp
  | none => exact absurd happ (applyMigration_up_none_err exec ctx (clock + 1) s _)

theorem range_shift_pair (v0 : Int) (k : Nat) :
    (v0, true) :: (List.range k).map (fun i : Nat => (v0 + 1 + (i : Int), true)) =
    (List.range (k + 1)).map (fun i : Nat => (v0 + (i : Int), true)) := by
  rw [List.range_succ_eq_map, List.map_cons, List.map_map]
  refine congrArg₂ _ (by norm_num) (List.map_congr_left ?_)
  intro a _
  simp only [Function.comp_apply]
  norm_num
  omega

theorem upFrom_calls_range {σ : Type} (exec : String → σ → Option σ)
    (ms : List Migration) (ctx : Nat → Bool) (hms : LoadedSet ms) :
    ∀ (fuel : Nat) (v0 : Int) (clock : Nat) (db : DBState σ), 0 ≤ v0 →
      ∃ k, applyCalls (upFrom exec ms ctx fuel v0 clock db).trace =
        (List.range k).map (fun i : Nat => (v0 + (i : Int), true)) := by
  intro fuel
  induction fuel with
  | zero => intro v0 clock db h0; exact ⟨0, rfl⟩
  | succ fuel ih =>
    intro v0 clock db h0
    rw [upFrom]
    by_cases hlt : v0 < (ms.length : Int)
    · rw [if_pos hlt, if_neg (by omega : ¬v0 < 0)]
      dsimp only
      by_cases hc : ctx clock = true
      · rw [if_pos hc]; exact ⟨0, rfl⟩
      · rw [if_neg hc]
        have hver : (ms.getD v0.toNat zeroMig).Version = v0 :=
          loadedSet_version_int ms hms v0 h0 hlt
        cases happ : (applyMigration exec ctx (clock + 1) db
            (ms.getD v0.toNat zeroMig) true).err with
        | some e =>
          refine ⟨1, ?_⟩
          dsimp only
          rw [show applyCalls (TraceEv.ctxCheck false ::
              (applyMigration exec ctx (clock + 1) db (ms.getD v0.toNat zeroMig)
                true).trace) = applyCalls (applyMigration exec ctx (clock + 1) db
              (ms.getD v0.toNat zeroMig) true).trace from rfl]
          rw [applyMigration_calls, hver,
            show List.range 1 = [0] from rfl, List.map_cons, List.map_nil]
          norm_num
        | none =>
          obtain ⟨k, hk⟩ := ih (v0 + 1) ((applyMigration exec ctx (clock + 1) db
            (ms.getD v0.toNat zeroMig) true).clock)
            ((applyMigration exec ctx (clock + 1) db
              (ms.getD v0.toNat zeroMig) true).db) (by omega)
          refine ⟨k + 1, ?_⟩
          dsimp only
          rw [show (TraceEv.ctxCheck false ::
              (applyMigration exec ctx (clock + 1) db (ms.getD v0.toNat zeroMig)
                true).trace) ++ (upFrom exec ms ctx fuel (v0 + 1)
              (applyMigration exec ctx (clock + 1) db (ms.getD v0.toNat zeroMig)
                true).clock (applyMigration exec ctx (clock + 1) db
                (ms.getD v0.toNat zeroMig) true).db).trace =
              TraceEv.ctxCheck false ::
              ((applyMigration exec ctx (clock + 1) db (ms.getD v0.toNat zeroMig)
                true).trace ++ (upFrom exec ms ctx fuel (v0 + 1)
              (applyMigration exec ctx (clock + 1) db (ms.getD v0.toNat zeroMig)
                true).clock (applyMigration exec ctx (clock + 1) db
                (ms.getD v0.toNat zeroMig) true).db).trace) from rfl]
          rw [show ∀ l : List TraceEv, applyCalls (TraceEv.ctxCheck false :: l) =
            applyCalls l from fun _ => rfl]
          rw [applyCalls_append, applyMigration_calls, hver, hk]
          exact range_shift_pair v0 k
    · rw [if_neg hlt]; exact ⟨0, rfl⟩

theorem amTrace_ccf {σ : Type} (exec : String → σ → Option σ) (ctx : Nat → Bool)
    (clock : Nat) (db : DBState σ) (mig : Migration) (isUp : Bool) (q : TraceEv) :
    callsCheckedFrom q
      (.ctxCheck false :: (applyMigration exec ctx clock db mig isUp).trace) = true := by
  obtain ⟨rest, htr, hst, -⟩ := applyMigration_trace_shape exec ctx clock db mig isUp
  rw [htr]
  simp only [callsCheckedFrom, Bool.true_and, beq_self_eq_true]
  exact allStmt_ccf rest hst _

theorem amTrace_noCancel {σ : Type} (exec : String → σ → Option σ) (ctx : Nat → Bool)
    (clock : Nat) (db : DBState σ) (mig : Migration) (isUp : Bool)
    (h : (applyMigration exec ctx clock db mig isUp).err = none) :
    noCancelCheck
      (.ctxCheck false :: (applyMigration exec ctx clock db mig isUp).trace) = true := by
  obtain ⟨rest, htr, hst, -⟩ := applyMigration_trace_shape exec ctx clock db mig isUp
  have hc : ctx clock = false := applyMigration_ok_not_cancelled exec ctx clock db mig isUp h
  rw [htr, hc]
  simp only [noCancelCheck]
  exact allStmt_noCancel rest hst

theorem amTrace_noEvents {σ : Type} (exec : String → σ → Option σ) (ctx : Nat → Bool)
    (clock : Nat) (db : DBState σ) (mig : Migration) (isUp : Bool) :
    noEventsAfterCancel
      (.ctxCheck false :: (applyMigration exec ctx clock db mig isUp).trace) = true := by
  obtain ⟨rest, htr, hst, hre⟩ := applyMigration_trace_shape exec ctx clock db mig isUp
  rw [htr]
  cases hc : ctx clock with
  | true =>
    rw [hre hc]
    rfl
  | false =>
    simp only [noEventsAfterCancel]
    exact noCancel_noEvents rest (allStmt_noCancel rest hst)

theorem upFrom_ccf {σ : Type} (exec : String → σ → Option σ)
    (ms : List Migration) (ctx : Nat → Bool) :
    ∀ (fuel : Nat) (v0 : Int) (clock : Nat) (db : DBState σ) (q : TraceEv),
      callsCheckedFrom q (upFrom exec ms ctx fuel v0 clock db).trace = true := by
  intro fuel
  induction fuel with
  | zero => intro v0 clock db q; rfl
  | succ fuel ih =>
    intro v0 clock db q
    rw [upFrom]
    by_cases hlt : v0 < (ms.length : Int)
    · rw [if_pos hlt]
      by_cases hneg : v0 < 0
      · rw [if_pos hneg]; rfl
      · rw [if_neg hneg]
        dsimp only
        by_cases hc : ctx clock = true
        · rw [if_pos hc]; rfl
        · rw [if_neg hc]
          cases happ : (applyMigration exec ctx (clock + 1) db
              (ms.getD v0.toNat zeroMig) true).err with
          | some e =>
            dsimp only
            exact amTrace_ccf exec ctx (clock + 1) db _ true q
          | none =>
            dsimp only
            exact ccf_append _ _ q (amTrace_ccf exec ctx (clock + 1) db _ true q)
              (fun p => ih _ _ _ p)
    · rw [if_neg hlt]; rfl

theorem upFrom_noEvents {σ : Type} (exec : String → σ → Option σ)
    (ms : List Migration) (ctx : Nat → Bool) :
    ∀ (fuel : Nat) (v0 : Int) (clock : Nat) (db : DBState σ),
      noEventsAfterCancel (upFrom exec ms ctx fuel v0 clock db).trace = true := by
  intro fuel
  induction fuel with
  | zero => intro v0 clock db; rfl
  | succ fuel ih =>
    intro v0 clock db
    rw [upFrom]
    by_cases hlt : v0 < (ms.length : Int)
    · rw [if_pos hlt]
      by_cases hneg : v0 < 0
      · rw [if_pos hneg]; rfl
      · rw [if_neg hneg]
        dsimp only
        by_cases hc : ctx clock = true
        · rw [if_pos hc]; rfl
        · rw [if_neg hc]
          cases happ : (applyMigration exec ctx (clock + 1) db
              (ms.getD v0.toNat zeroMig) true).err with
          | some e =>
            dsimp only
            exact amTrace_noEvents exec ctx (clock + 1) db _ true
          | none =>
            dsimp only
            exact noCancel_append _ _
              (amTrace_noCancel exec ctx (clock + 1) db _ true happ) (ih _ _ _)
    · rw [if_neg hlt]; rfl

theorem stepsPos_ccf {σ : Type} (exec : String → σ → Option σ)
    (ms : List Migration) (ctx : Nat → Bool) :
    ∀ (rem i : Nat) (cv : Int) (clock : Nat) (db : DBState σ) (q : TraceEv),
      callsCheckedFrom q (stepsPos exec ms ctx rem i cv clock db).trace = true := by
  intro rem
  induction rem with
  | zero => intro i cv clock db q; rfl
  | succ rem ih =>
    intro i cv clock db q
    rw [stepsPos]
    by_cases hlt : cv + 1 + (i : Int) < (ms.length : Int)
    · rw [if_pos hlt]
      by_cases hneg : cv + 1 + (i : Int) < 0
      · rw [if_pos hneg]; rfl
      · rw [if_neg hneg]
        dsimp only
        by_cases hc : ctx clock = true
        · rw [if_pos hc]; rfl
        · rw [if_neg hc]
          cases happ : (applyMigration exec ctx (clock + 1) db
              (ms.getD (cv + 1 + (i : Int)).toNat zeroMig) true).err with
          | some e =>
            dsimp only
            exact amTrace_ccf exec ctx (clock + 1) db _ true q
          | none =>
            dsimp only
            exact ccf_append _ _ q (amTrace_ccf exec ctx (clock + 1) db _ true q)
              (fun p => ih _ _ _ _ p)
    · rw [if_neg hlt]; rfl

theorem stepsPos_noEvents {σ : Type} (exec : String → σ → Option σ)
    (ms : List Migration) (ctx : Nat → Bool) :
    ∀ (rem i : Nat) (cv : Int) (clock : Nat) (db : DBState σ),
      noEventsAfterCancel (stepsPos exec ms ctx rem i cv clock db).trace = true := by
  intro rem
  induction rem with
  | zero => intro i cv clock db; rfl
  | succ rem ih =>
    intro i cv clock db
    rw [stepsPos]
    by_cases hlt : cv + 1 + (i : Int) < (ms.length : Int)
    · rw [if_pos hlt]
      by_cases hneg : cv + 1 + (i : Int) < 0
      · rw [if_pos hneg]; rfl
      · rw [if_neg hneg]
        dsimp only
        by_cases hc : ctx clock = true
        · rw [if_pos hc]; rfl
        · rw [if_neg hc]
          cases happ : (applyMigration exec ctx (clock + 1) db
              (ms.getD (cv + 1 + (i : Int)).toNat zeroMig) true).err with
          | some e =>
            dsimp only
            exact amTrace_noEvents exec ctx (clock + 1) db _ true
          | none =>
            dsimp only
            exact noCancel_append _ _
              (amTrace_noCancel exec ctx (clock + 1) db _ true happ) (ih _ _ _ _)
    · rw [if_neg hlt]; rfl

theorem stepsPos_calls_ge {σ : Type} (exec : String → σ → Option σ)
    (ms : List Migration) (ctx : Nat → Bool) (hms : LoadedSet ms) :
    ∀ (rem i : Nat) (cv : Int) (clock : Nat) (db : DBState σ) (v : Int) (u : Bool),
      0 ≤ cv + 1 + (i : Int) →
      (v, u) ∈ applyCalls (stepsPos exec ms ctx rem i cv clock db).trace →
      cv + 1 + (i : Int) ≤ v := by
  intro rem
  induction rem with
  | zero => intro i cv clock db v u hge hmem; cases hmem
  | succ rem ih =>
    intro i cv clock db v u hge hmem
    rw [stepsPos] at hmem
    by_cases hlt : cv + 1 + (i : Int) < (ms.length : Int)
    · rw [if_pos hlt, if_neg (by omega : ¬cv + 1 + (i : Int) < 0)] at hmem
      dsimp only at hmem
      by_cases hc : ctx clock = true
      · rw [if_pos hc] at hmem; cases hmem
      · rw [if_neg hc] at hmem
        have hver : (ms.getD (cv + 1 + (i : Int)).toNat zeroMig).Version =
            cv + 1 + (i : Int) :=
          loadedSet_version_int ms hms _ hge hlt
        cases happ : (applyMigration exec ctx (clock + 1) db
            (ms.getD (cv + 1 + (i : Int)).toNat zeroMig) true).err with
        | some e =>
          rw [happ] at hmem
          dsimp only at hmem
          rw [show ∀ l : List TraceEv, applyCalls (TraceEv.ctxCheck false :: l) =
            applyCalls l from fun _ => rfl, applyMigration_calls, hver] at hmem
          rcases List.mem_singleton.mp hmem with h
          rw [Prod.mk.injEq] at h
          omega
        | none =>
          rw [happ] at hmem
          dsimp only at hmem
          rw [show ∀ l l2 : List TraceEv,
              (TraceEv.ctxCheck false :: l) ++ l2 =
              TraceEv.ctxCheck false :: (l ++ l2) from fun _ _ => rfl] at hmem
          rw [show ∀ l : List TraceEv, applyCalls (TraceEv.ctxCheck false :: l) =
            applyCalls l from fun _ => rfl, applyCalls_append,
            applyMigration_calls, hver] at hmem
          rcases List.mem_append.mp hmem with h | h
          · rcases List.mem_singleton.mp h with h
            rw [Prod.mk.injEq] at h
            omega
          · have := ih (i + 1) (cv + 1 + (i : Int)) _ _ v u (by push_cast; omega)
              h
            push_cast at this
            omega
    · rw [if_neg hlt] at hmem; cases hmem

theorem findLast_loaded (ms : List Migration) (hms : LoadedSet ms) (w : Nat)
    (hw : w < ms.length) : findLast239 ms (w : Int) = some (ms.getD w zeroMig) := by
  have hDmem : ms.getD w zeroMig ∈ ms.reverse := by
    rw [List.mem_reverse, List.getD_eq_getElem ms zeroMig hw]
    exact List.getElem_mem hw
  unfold findLast239
  cases hfind : ms.reverse.find? (fun m => m.Version == (w : Int)) with
  | none =>
    rw [List.find?_eq_none] at hfind
    have h1 := hfind _ hDmem
    rw [loadedSet_version hms w hw] at h1
    simp at h1
  | some x =>
    have hx : x ∈ ms := List.mem_reverse.mp (List.mem_of_find?_eq_some hfind)
    have hpx : x.Version = (w : Int) := by
      have := List.find?_some hfind
      exact beq_iff_eq.mp this
    obtain ⟨j, hj, hget⟩ := List.mem_iff_getElem.mp hx
    have hvj : x.Version = (j : Int) := by
      rw [← hget, ← List.getD_eq_getElem ms zeroMig hj]
      exact loadedSet_version hms j hj
    have : j = w := by omega
    subst this
    rw [← hget, List.getD_eq_getElem ms zeroMig hj]

theorem stepsNeg_ccf {σ : Type} (exec : String → σ → Option σ)
    (ms : List Migration) (ctx : Nat → Bool) :
    ∀ (rem : Nat) (cv : Int) (clock : Nat) (db : DBState σ) (q : TraceEv),
      callsCheckedFrom q (stepsNeg exec ms ctx rem cv clock db).trace = true := by
  intro rem
  induction rem with
  | zero => intro cv clock db q; rfl
  | succ rem ih =>
    intro cv clock db q
    rw [stepsNeg]
    by_cases h0 : cv = 0
    · rw [if_pos h0]; rfl
    · rw [if_neg h0]
      by_cases hc : ctx clock = true
      · rw [if_pos hc]; rfl
      · rw [if_neg hc]
        cases hfind : findLast239 ms cv with
        | none => rfl
        | some mig =>
          dsimp only
          by_cases hdn : goTrim mig.DownSQL = ""
          · rw [if_pos hdn]; rfl
          · rw [if_neg hdn]
            cases happ : (applyMigration exec ctx (clock + 1) db mig false).err with
            | some e =>
              dsimp only
              exact amTrace_ccf exec ctx (clock + 1) db mig false q
            | none =>
              dsimp only
              exact ccf_append _ _ q (amTrace_ccf exec ctx (clock + 1) db mig false q)
                (fun p => ih _ _ _ p)

theorem stepsNeg_noEvents {σ : Type} (exec : String → σ → Option σ)
    (ms : List Migration) (ctx : Nat → Bool) :
    ∀ (rem : Nat) (cv : Int) (clock : Nat) (db : DBState σ),
      noEventsAfterCancel (stepsNeg exec ms ctx rem cv clock db).trace = true := by
  intro rem
  induction rem with
  | zero => intro cv clock db; rfl
  | succ rem ih =>
    intro cv clock db
    rw [stepsNeg]
    by_cases h0 : cv = 0
    · rw [if_pos h0]; rfl
    · rw [if_neg h0]
      by_cases hc : ctx clock = true
      · rw [if_pos hc]; rfl
      · rw [if_neg hc]
        cases hfind : findLast239 ms cv with
        | none => rfl
        | some mig =>
          dsimp only
          by_cases hdn : goTrim mig.DownSQL = ""
          · rw [if_pos hdn]; rfl
          · rw [if_neg hdn]
            cases happ : (applyMigration exec ctx (clock + 1) db mig false).err with
            | some e =>
              dsimp only
              exact amTrace_noEvents exec ctx (clock + 1) db mig false
            | none =>
              dsimp only
              exact noCancel_append _ _
                (amTrace_noCancel exec ctx (clock + 1) db mig false happ) (ih _ _ _)

theorem stepsNeg_out {σ : Type} (exec : String → σ → Option σ)
    (ms : List Migration) (hms : LoadedSet ms)
    (hex : ∀ t s0, (exec t s0).isSome = true) :
    ∀ (v : Nat), v < ms.length →
      (∀ w : Nat, w ≤ v → 1 ≤ w → ¬goTrim ((ms.getD w zeroMig).DownSQL) = "") →
      ∀ (rem clock : Nat) (rows : List Int) (s : σ),
        (∀ x ∈ rows, x ≤ (v : Int)) → v < rem →
        (stepsNeg exec ms ctxNone rem (v : Int) clock ⟨some rows, s⟩).err =
            some .noMigrations ∧
        (stepsNeg exec ms ctxNone rem (v : Int) clock ⟨some rows, s⟩).db.table =
            some (rows.filter (fun x => decide (x ≤ 0))) := by
  intro v
  induction v with
  | zero =>
    intro hv hdown rem clock rows s hb hrem
    cases rem with
    | zero => omega
    | succ r =>
      rw [stepsNeg, if_pos (by norm_num)]
      refine ⟨rfl, ?_⟩
      have : rows.filter (fun x => decide (x ≤ 0)) = rows :=
        List.filter_eq_self.mpr (fun x hx => by
          simpa using hb x hx)
      rw [this]
  | succ v ih =>
    intro hv hdown rem clock rows s hb hrem
    cases rem with
    | zero => omega
    | succ r =>
      rw [stepsNeg, if_neg (by push_cast; omega : ¬((v + 1 : Nat) : Int) = 0),
        if_neg (by rw [show ctxNone clock = false from rfl]; exact Bool.false_ne_true)]
      rw [findLast_loaded ms hms (v + 1) hv]
      dsimp only
      rw [if_neg (hdown (v + 1) (le_refl _) (by omega))]
      obtain ⟨s', tr, heq⟩ := applyMigration_down_ok exec ctxNone (clock + 1) rows s
        (ms.getD (v + 1) zeroMig) rfl (hdown (v + 1) (le_refl _) (by omega)) hex
      rw [heq]
      dsimp only
      have hver : (ms.getD (v + 1) zeroMig).Version = ((v + 1 : Nat) : Int) := by
        rw [loadedSet_version hms (v + 1) hv]
      have hcast : (ms.getD (v + 1) zeroMig).Version - 1 = ((v : Nat) : Int) := by
        rw [hver]; push_cast; omega
      rw [hcast]
      have hb2 : ∀ x ∈ rows.filter (fun x => x != (ms.getD (v + 1) zeroMig).Version),
          x ≤ ((v : Nat) : Int) := by
        intro x hx
        rw [List.mem_filter] at hx
        have h1 := hb x hx.1
        have h2 := hx.2
        rw [hver] at h2
        rw [bne_iff_ne] at h2
        push_cast at h1 h2 ⊢
        omega
      obtain ⟨he, ht⟩ := ih (by omega)
        (fun w hw h1 => hdown w (by omega) h1) r
        ((⟨none, ⟨some (rows.filter (fun x => x != (ms.getD (v + 1) zeroMig).Version)),
          s'⟩, clock + 1 + 1, tr⟩ : MRes σ).clock)
        (rows.filter (fun x => x != (ms.getD (v + 1) zeroMig).Version)) s' hb2 (by omega)
      refine ⟨he, ?_⟩
      rw [ht]
      congr 1
      rw [List.filter_filter]
      refine List.filter_congr ?_
      intro x hx
      by_cases hle : x ≤ 0
      · have h1 : (x != (ms.getD (v + 1) zeroMig).Version) = true := by
          rw [hver, bne_iff_ne]
          omega
        rw [h1, Bool.and_true]
      · rw [show decide (x ≤ 0) = false from by simp [hle], Bool.false_and]

theorem loadLoop_invalid_entry (f : String → Option String) (e : DirEntry)
    (rest : List DirEntry) (migs : List Migration) (maxV : Int)
    (h : validFileB e = false) :
    loadLoop f (e :: rest) migs maxV = loadLoop f rest migs maxV := by
  unfold validFileB at h
  rw [loadLoop]
  by_cases h1 : e.isDir
  · rw [if_pos h1]
  · rw [if_neg h1]
    by_cases h2 : e.name.data.length < 6
    · rw [if_pos h2]
    · rw [if_neg h2]
      cases h3 : atoi (takeCh e.name 6) with
      | none => rfl
      | some version =>
        cases h4 : suffixKind e.name with
        | none => rfl
        | some isUp =>
          exfalso
          rw [Bool.and_eq_false_iff, Bool.and_eq_false_iff, Bool.and_eq_false_iff] at h
          rcases h with ((ha | hb) | hc) | hd
          · simp at ha; exact h1 ha
          · rw [decide_eq_false_iff_not] at hb; omega
          · rw [h3] at hc; simp at hc
          · rw [h4] at hd; simp at hd

theorem loadLoop_all_invalid (f : String → Option String) :
    ∀ (entries : List DirEntry) (migs : List Migration) (maxV : Int),
      (∀ e ∈ entries, validFileB e = false) →
      loadLoop f entries migs maxV = .ok migs maxV := by
  intro entries
  induction entries with
  | nil => intro migs maxV h; rfl
  | cons e rest ih =>
    intro migs maxV h
    rw [loadLoop_invalid_entry f e rest migs maxV (h e (List.mem_cons_self e rest))]
    exact ih migs maxV (fun x hx => h x (List.mem_cons_of_mem e hx))

theorem firstMissingUp_none (migs : List Migration) :
    ∀ (k : Nat), firstMissingUp migs k = none →
      ∀ i, i < k → (migs.getD i zeroMig).UpSQL ≠ "" := by
  intro k
  induction k with
  | zero => intro h i hi; omega
  | succ k ih =>
    intro h i hi
    rw [firstMissingUp] at h
    cases hfm : firstMissingUp migs k with
    | some j => rw [hfm] at h; cases h
    | none =>
      rw [hfm] at h
      by_cases hup : (migs.getD k zeroMig).UpSQL = ""
      · rw [if_pos hup] at h; cases h
      · rcases Nat.lt_succ_iff_lt_or_eq.mp hi with h1 | h1
        · exact ih hfm i h1
        · subst h1; exact hup

/-- C2: if executing any statement of the selected script fails, `Apply` returns a
`ScriptExecutionError` naming the version, direction and 1-based failing statement
index, the transaction is rolled back (the database is unchanged), and
`CurrentVersion()` afterwards equals its value before the attempt. -/
theorem C2_script_failure_rolls_back {σ : Type} (exec : String → σ → Option σ)
    (ctx : Nat → Bool) (clock : Nat) (db : DBState σ) (mig : Migration)
    (isUp : Bool) (i : Nat)
    (hctx : ctx clock = false)
    (hne : ¬goTrim (if isUp then mig.UpSQL else mig.DownSQL) = "")
    (hfail : (runStmts exec (splitSemi (if isUp then mig.UpSQL else mig.DownSQL)) 0
      db.schema).1 = .error i) :
    (applyMigration exec ctx clock db mig isUp).err =
        some (.scriptExec mig.Version isUp i) ∧
    (applyMigration exec ctx clock db mig isUp).db = db ∧
    (getCurrentVersion ctxNone 0 (applyMigration exec ctx clock db mig isUp).db).1 =
      (getCurrentVersion ctxNone 0 db).1 := by
  unfold applyMigration
  rw [if_neg (by rw [hctx]; exact Bool.false_ne_true)]
  dsimp only
  rw [if_neg hne, hfail]
  exact ⟨rfl, rfl, rfl⟩

/-- Witness for C2 at a concrete failing statement: a single-statement up-script
whose execution fails at statement index 1. -/
theorem C2_script_failure_rolls_back_witness :
    (applyMigration (fun _ (_ : Unit) => none) ctxNone 0 ⟨some [0], ()⟩
        ⟨1, "a", "b"⟩ true).err = some (.scriptExec 1 true 1) ∧
    (applyMigration (fun _ (_ : Unit) => none) ctxNone 0 ⟨some [0], ()⟩
        ⟨1, "a", "b"⟩ true).db = ⟨some [0], ()⟩ ∧
    (getCurrentVersion ctxNone 0 (applyMigration (fun _ (_ : Unit) => none) ctxNone 0
        ⟨some [0], ()⟩ ⟨1, "a", "b"⟩ true).db).1 =
      (getCurrentVersion ctxNone 0 (⟨some [0], ()⟩ : DBState Unit)).1 :=
  C2_script_failure_rolls_back (fun _ _ => none) ctxNone 0 ⟨some [0], ()⟩
    ⟨1, "a", "b"⟩ true 1 rfl (by decide) rfl

/-- C5 counterexample: with versions 0–2 applied and version 1 having an empty
down-script but version 2 a non-empty one, `Steps(-2)` reaches version 1 mid-run:
it does fail with the not-revertible error, but SQL of migration 2 was executed
and `CurrentVersion()` drops from 2 to 1 — it is not unchanged as the claim says. -/
theorem C5_counterexample :
    (steps (fun _ (s : Unit) => some s)
        [⟨0, "u0", "d0"⟩, ⟨1, "u1", ""⟩, ⟨2, "u2", "d2"⟩]
        ctxNone (-2) 0 ⟨some [0, 1, 2], ()⟩).err = some (.notRevertible 1) ∧
    curVer (steps (fun _ (s : Unit) => some s)
        [⟨0, "u0", "d0"⟩, ⟨1, "u1", ""⟩, ⟨2, "u2", "d2"⟩]
        ctxNone (-2) 0 ⟨some [0, 1, 2], ()⟩).db = 1 ∧
    curVer (⟨some [0, 1, 2], ()⟩ : DBState Unit) = 2 ∧
    TraceEv.stmt "d2" ∈ (steps (fun _ (s : Unit) => some s)
        [⟨0, "u0", "d0"⟩, ⟨1, "u1", ""⟩, ⟨2, "u2", "d2"⟩]
        ctxNone (-2) 0 ⟨some [0, 1, 2], ()⟩).trace :=
  ⟨rfl, rfl, rfl, by decide⟩

/-- C5 (amended): for a migration whose down-script is empty or whitespace-only,
a down-direction request that starts at that version — `Down()`, or `Steps` with a
negative count whose first rollback is that version — fails with the
not-revertible error before any SQL executes, and the database (hence
`CurrentVersion()`) is unchanged.  (A `Steps` run that only reaches the version
after earlier successful rollbacks keeps those committed rollbacks, see the
counterexample.) -/
theorem C5_blank_down_fails_early :
    (∀ (σ : Type) (exec : String → σ → Option σ) (ms : List Migration)
        (db : DBState σ) (v : Int) (mig : Migration),
      (getCurrentVersion ctxNone 0 db).1 = .ok v → ¬v = 0 →
      findLast239 ms v = some mig → goTrim mig.DownSQL = "" →
      (down exec ms ctxNone 0 db).err = some (.notRevertible v) ∧
      (down exec ms ctxNone 0 db).db = db ∧
      hasStmt (down exec ms ctxNone 0 db).trace = false) ∧
    (∀ (σ : Type) (exec : String → σ → Option σ) (ms : List Migration)
        (db : DBState σ) (v : Int) (mig : Migration) (n : Int),
      (getCurrentVersion ctxNone 0 db).1 = .ok v → ¬v = 0 →
      findLast239 ms v = some mig → goTrim mig.DownSQL = "" → n < 0 →
      (steps exec ms ctxNone n 0 db).err = some (.notRevertible v) ∧
      (steps exec ms ctxNone n 0 db).db = db ∧
      hasStmt (steps exec ms ctxNone n 0 db).trace = false) := by
  constructor
  · intro σ exec ms db v mig hcv hv0 hfind hdn
    have hc : curVer db = v := by
      have : (getCurrentVersion ctxNone 0 db).1 = .ok (curVer db) := rfl
      rw [this] at hcv
      exact Except.ok.inj hcv
    have hg : getCurrentVersion ctxNone (0 + 1) db = (.ok v, 0 + 1 + 1) := by
      unfold getCurrentVersion
      rw [if_neg (by exact Bool.false_ne_true), hc]
    unfold down
    rw [if_neg (by exact Bool.false_ne_true), hg]
    dsimp only
    rw [if_neg hv0, hfind]
    dsimp only
    rw [if_pos hdn]
    exact ⟨rfl, rfl, rfl⟩
  · intro σ exec ms db v mig n hcv hv0 hfind hdn hn
    have hc : curVer db = v := by
      have : (getCurrentVersion ctxNone 0 db).1 = .ok (curVer db) := rfl
      rw [this] at hcv
      exact Except.ok.inj hcv
    have hg : getCurrentVersion ctxNone (0 + 1) db = (.ok v, 0 + 1 + 1) := by
      unfold getCurrentVersion
      rw [if_neg (by exact Bool.false_ne_true), hc]
    unfold steps
    rw [if_neg (by exact Bool.false_ne_true), hg]
    dsimp only
    rw [if_neg (by omega : ¬0 < n), if_pos hn]
    obtain ⟨k, hk⟩ : ∃ k, (-n).toNat = k + 1 := ⟨(-n).toNat - 1, by omega⟩
    rw [hk, stepsNeg, if_neg hv0,
      if_neg (by exact Bool.false_ne_true), hfind]
    dsimp only
    rw [if_pos hdn]
    exact ⟨rfl, rfl, rfl⟩

/-- Witness for C5 (amended) at a concrete set: version 1 has an empty
down-script; both `Down()` and `Steps(-1)` starting at version 1 fail with the
not-revertible error, change nothing, and execute no SQL. -/
theorem C5_blank_down_fails_early_witness :
    ((down (fun _ (s : Unit) => some s) [⟨0, "u", ""⟩, ⟨1, "u1", ""⟩] ctxNone 0
        ⟨some [0, 1], ()⟩).err = some (.notRevertible 1) ∧
     (down (fun _ (s : Unit) => some s) [⟨0, "u", ""⟩, ⟨1, "u1", ""⟩] ctxNone 0
        ⟨some [0, 1], ()⟩).db = ⟨some [0, 1], ()⟩ ∧
     hasStmt (down (fun _ (s : Unit) => some s) [⟨0, "u", ""⟩, ⟨1, "u1", ""⟩] ctxNone 0
        ⟨some [0, 1], ()⟩).trace = false) ∧
    ((steps (fun _ (s : Unit) => some s) [⟨0, "u", ""⟩, ⟨1, "u1", ""⟩] ctxNone (-1) 0
        ⟨some [0, 1], ()⟩).err = some (.notRevertible 1) ∧
     (steps (fun _ (s : Unit) => some s) [⟨0, "u", ""⟩, ⟨1, "u1", ""⟩] ctxNone (-1) 0
        ⟨some [0, 1], ()⟩).db = ⟨some [0, 1], ()⟩ ∧
     hasStmt (steps (fun _ (s : Unit) => some s) [⟨0, "u", ""⟩, ⟨1, "u1", ""⟩] ctxNone
        (-1) 0 ⟨some [0, 1], ()⟩).trace = false) :=
  ⟨C5_blank_down_fails_early.1 Unit (fun _ s => some s) [⟨0, "u", ""⟩, ⟨1, "u1", ""⟩]
      ⟨some [0, 1], ()⟩ 1 ⟨1, "u1", ""⟩ rfl (by decide) rfl rfl,
   C5_blank_down_fails_early.2 Unit (fun _ s => some s) [⟨0, "u", ""⟩, ⟨1, "u1", ""⟩]
      ⟨some [0, 1], ()⟩ 1 ⟨1, "u1", ""⟩ (-1) rfl (by decide) rfl rfl (by decide)⟩

/-- C6: the loader fails with a load error when the directory cannot be read and
when no valid migration file is present; a successful load guarantees every
version in `[0, maxVersion]` has a non-empty up-script (so a gap such as version 2
present with version 1 entirely missing is rejected with `missingUp 1`, never
silently skipped); and `NewMigrator` turns any load error into a construction
error, so no migrations can run after such a failure. -/
theorem C6_loader_rejects_bad_directories :
    (∀ f, loadMigrations none f = .err .dirRead) ∧
    (∀ (entries : List DirEntry) (f : String → Option String),
      (∀ e ∈ entries, validFileB e = false) →
      loadMigrations (some entries) f = .err .noValidFiles) ∧
    (∀ (entries : List DirEntry) (f : String → Option String) (ms : List Migration),
      loadMigrations (some entries) f = .ok ms →
      ∀ i, i < ms.length → (ms.getD i zeroMig).UpSQL ≠ "") ∧
    (loadMigrations (some [⟨"000002_x.up.sql", false⟩, ⟨"000000_b.up.sql", false⟩])
      (fun _ => some "s") = .err (.missingUp 1)) ∧
    (∀ (c : Option Unit) (e : LoadErr), ∃ e',
      newMigrator ctxNone c (.err e) = .error e') := by
  refine ⟨fun f => rfl, ?_, ?_, by decide, ?_⟩
  · intro entries f hinv
    unfold loadMigrations
    dsimp only
    rw [loadLoop_all_invalid f entries _ _ hinv]
    rfl
  · intro entries f ms hok i hi
    unfold loadMigrations at hok
    dsimp only at hok
    cases hll : loadLoop f entries
        (List.replicate (entries.length / 2 + 5) zeroMig) (-1) with
    | err e => rw [hll] at hok; cases hok
    | panicIdx v => rw [hll] at hok; cases hok
    | ok migs maxV =>
      rw [hll] at hok
      dsimp only at hok
      cases hmax : (maxV == -1) with
      | true => rw [hmax, if_pos rfl] at hok; cases hok
      | false =>
        rw [hmax, if_neg Bool.false_ne_true] at hok
        cases hfm : firstMissingUp migs (maxV.toNat + 1) with
        | some j => rw [hfm] at hok; cases hok
        | none =>
          rw [hfm] at hok
          have hms : ms = migs.take (maxV.toNat + 1) := (LoadResult.ok.inj hok).symm
          subst hms
          have hik : i < maxV.toNat + 1 := by
            have := hi
            rw [List.length_take] at this
            omega
          rw [List.getD_eq_getElem?_getD, List.getElem?_take_of_lt hik,
            ← List.getD_eq_getElem?_getD]
          exact firstMissingUp_none migs (maxV.toNat + 1) hfm i hik
  · intro c e
    cases c with
    | none => exact ⟨.connectFailed, rfl⟩
    | some u => exact ⟨.loadFailed e, rfl⟩

/-- Witness for C6: a directory with only an unrecognised file fails with
`noValidFiles`, and from a successful single-file load the loaded record's
up-script is non-empty. -/
theorem C6_loader_rejects_bad_directories_witness :
    loadMigrations (some [⟨"readme.md", false⟩]) (fun _ => some "s") =
      .err .noValidFiles ∧
    (([⟨0, "s", ""⟩] : List Migration).getD 0 zeroMig).UpSQL ≠ "" :=
  ⟨C6_loader_rejects_bad_directories.2.1 [⟨"readme.md", false⟩] (fun _ => some "s")
      (by decide),
   C6_loader_rejects_bad_directories.2.2.1 [⟨"000000_a.up.sql", false⟩]
      (fun _ => some "s") [⟨0, "s", ""⟩] (by decide) 0 (by decide)⟩

/-- C9: the claim says loading never panics with an index out of range, but a
readable directory holding the single well-formed file `000010_a.up.sql` makes the
loader index slot 10 of its slice of length `1/2 + 5 = 5`: the Go code panics
(modelled as the `panicIdx` outcome) instead of returning a set or an error. -/
theorem C9_loader_panics_on_large_version :
    loadMigrations (some [⟨"000010_a.up.sql", false⟩]) (fun _ => some "CREATE") =
      .panicIdx 10 ∧
    loadMigrations (some [⟨"-00001_a.up.sql", false⟩]) (fun _ => some "CREATE") =
      .panicIdx (-1) := by
  exact ⟨rfl, rfl⟩

/-- C7: the claim says a successful `Steps(n)` applies exactly
`min(n, maxVersion - v)` forward migrations in strictly increasing order with no
version skipped.  The loop body reassigns `currentVersion` while also adding the
loop index, so from version 0 with four migrations loaded, `Steps(2)` succeeds but
applies versions 1 and 3 — skipping version 2 — and from version 0 with three
migrations loaded, `Steps(2)` applies only one migration although
`min(2, maxVersion - 0) = 2`. -/
theorem C7_steps_skips_versions :
    ((steps (fun _ (s : Unit) => some s)
        [⟨0, "a", "b"⟩, ⟨1, "a", "b"⟩, ⟨2, "a", "b"⟩, ⟨3, "a", "b"⟩]
        ctxNone 2 0 ⟨some [0], ()⟩).err = none ∧
     applyCalls (steps (fun _ (s : Unit) => some s)
        [⟨0, "a", "b"⟩, ⟨1, "a", "b"⟩, ⟨2, "a", "b"⟩, ⟨3, "a", "b"⟩]
        ctxNone 2 0 ⟨some [0], ()⟩).trace = [(1, true), (3, true)]) ∧
    ((steps (fun _ (s : Unit) => some s)
        [⟨0, "a", "b"⟩, ⟨1, "a", "b"⟩, ⟨2, "a", "b"⟩]
        ctxNone 2 0 ⟨some [0], ()⟩).err = none ∧
     applyCalls (steps (fun _ (s : Unit) => some s)
        [⟨0, "a", "b"⟩, ⟨1, "a", "b"⟩, ⟨2, "a", "b"⟩]
        ctxNone 2 0 ⟨some [0], ()⟩).trace = [(1, true)]) :=
  ⟨⟨rfl, rfl⟩, ⟨rfl, rfl⟩⟩

/-- C3: the round-trip law fails because of the version-skipping defect in the
forward `Steps` loop: with versions 0–3 loaded and all scripts executable,
starting at version 0, `Steps(2)` applies versions 1 and 3 (current version 3) and
`Steps(-2)` then rolls back 3 and 2, leaving `CurrentVersion() = 1 ≠ 0`, although
both calls succeed and every touched version has a non-empty down-script. -/
theorem C3_round_trip_fails :
    ((steps (fun _ (s : Unit) => some s)
        [⟨0, "a", "b"⟩, ⟨1, "a", "b"⟩, ⟨2, "a", "b"⟩, ⟨3, "a", "b"⟩]
        ctxNone 2 0 ⟨some [0], ()⟩).err = none) ∧
    ((steps (fun _ (s : Unit) => some s)
        [⟨0, "a", "b"⟩, ⟨1, "a", "b"⟩, ⟨2, "a", "b"⟩, ⟨3, "a", "b"⟩]
        ctxNone (-2) 0 (steps (fun _ (s : Unit) => some s)
          [⟨0, "a", "b"⟩, ⟨1, "a", "b"⟩, ⟨2, "a", "b"⟩, ⟨3, "a", "b"⟩]
          ctxNone 2 0 ⟨some [0], ()⟩).db).err = none) ∧
    curVer (⟨some [0], ()⟩ : DBState Unit) = 0 ∧
    curVer (steps (fun _ (s : Unit) => some s)
        [⟨0, "a", "b"⟩, ⟨1, "a", "b"⟩, ⟨2, "a", "b"⟩, ⟨3, "a", "b"⟩]
        ctxNone (-2) 0 (steps (fun _ (s : Unit) => some s)
          [⟨0, "a", "b"⟩, ⟨1, "a", "b"⟩, ⟨2, "a", "b"⟩, ⟨3, "a", "b"⟩]
          ctxNone 2 0 ⟨some [0], ()⟩).db).db = 1 :=
  ⟨rfl, rfl, rfl, rfl⟩

/-- C10: when `GetCurrentVersion` reports 0 (tracking table absent or empty),
`Up()` begins applying at version 1 — its Applier invocations are version
`1, 2, …` in order — and never invokes the Applier on migration 0; likewise no
forward `Steps(n)` run from version 0 ever invokes the Applier on migration 0:
forward application always starts at `currentVersion + 1`. -/
theorem C10_up_skips_bootstrap {σ : Type} (exec : String → σ → Option σ)
    (ms : List Migration) (hms : LoadedSet ms) (db : DBState σ)
    (hcv : (getCurrentVersion ctxNone 0 db).1 = .ok 0) :
    (∃ k, applyCalls (up exec ms ctxNone 0 db).trace =
      (List.range k).map (fun i : Nat => ((1 : Int) + (i : Int), true))) ∧
    ((0 : Int), true) ∉ applyCalls (up exec ms ctxNone 0 db).trace ∧
    (∀ n : Int, 0 < n →
      ((0 : Int), true) ∉ applyCalls (steps exec ms ctxNone n 0 db).trace) := by
  have hc : curVer db = 0 := by
    have h0 : (getCurrentVersion ctxNone 0 db).1 = .ok (curVer db) := rfl
    rw [h0] at hcv
    exact Except.ok.inj hcv
  have hg : getCurrentVersion ctxNone (0 + 1) db = (.ok 0, 0 + 1 + 1) := by
    unfold getCurrentVersion
    rw [if_neg (by exact Bool.false_ne_true), hc]
  have hup : ∃ k, applyCalls (up exec ms ctxNone 0 db).trace =
      (List.range k).map (fun i : Nat => ((1 : Int) + (i : Int), true)) := by
    unfold up
    rw [if_neg (by exact Bool.false_ne_true), hg]
    dsimp only
    rw [show ∀ l : List TraceEv, applyCalls (TraceEv.ctxCheck false :: l) =
      applyCalls l from fun _ => rfl]
    obtain ⟨k, hk⟩ := upFrom_calls_range exec ms ctxNone hms (ms.length + 1)
      ((0 : Int) + 1) (0 + 1 + 1) db (by omega)
    simp only [zero_add] at hk
    exact ⟨k, hk⟩
  refine ⟨hup, ?_, ?_⟩
  · obtain ⟨k, hk⟩ := hup
    rw [hk]
    intro hmem
    obtain ⟨i, -, heq⟩ := List.mem_map.mp hmem
    rw [Prod.mk.injEq] at heq
    omega
  · intro n hn
    unfold steps
    rw [if_neg (by exact Bool.false_ne_true), hg]
    dsimp only
    rw [if_pos hn]
    dsimp only
    rw [show ∀ l : List TraceEv, applyCalls (TraceEv.ctxCheck false :: l) =
      applyCalls l from fun _ => rfl]
    intro hmem
    have := stepsPos_calls_ge exec ms ctxNone hms n.toNat 0 0 (0 + 1 + 1) db 0 true
      (by norm_num) (by simpa using hmem)
    norm_num at this

/-- Witness for C10 on a concrete two-migration set with an empty tracking table:
`Up()` invokes the Applier exactly on version 1 and never on version 0, and
`Steps(1)` never on version 0. -/
theorem C10_up_skips_bootstrap_witness :
    (∃ k, applyCalls (up (fun _ (s : Unit) => some s) [⟨0, "u", ""⟩, ⟨1, "u1", ""⟩]
        ctxNone 0 ⟨some [], ()⟩).trace =
      (List.range k).map (fun i : Nat => ((1 : Int) + (i : Int), true))) ∧
    ((0 : Int), true) ∉ applyCalls (up (fun _ (s : Unit) => some s)
        [⟨0, "u", ""⟩, ⟨1, "u1", ""⟩] ctxNone 0 ⟨some [], ()⟩).trace ∧
    (∀ n : Int, 0 < n →
      ((0 : Int), true) ∉ applyCalls (steps (fun _ (s : Unit) => some s)
        [⟨0, "u", ""⟩, ⟨1, "u1", ""⟩] ctxNone n 0 ⟨some [], ()⟩).trace) :=
  C10_up_skips_bootstrap (fun _ s => some s) [⟨0, "u", ""⟩, ⟨1, "u1", ""⟩]
    rfl ⟨some [], ()⟩ rfl

/-- C4: `Down()` at version 0 fails with the no-migrations error and mutates no
state; and `Steps(-k)` from a consistent version `v < k` rolls back versions
`v, v-1, …, 1`, then fails with the no-migrations error as soon as the version
reaches 0, leaving exactly the rollbacks already committed in place (the tracking
table keeps only its entries `≤ 0`). -/
theorem C4_down_at_zero_and_runs_out :
    (∀ (σ : Type) (exec : String → σ → Option σ) (ms : List Migration)
        (db : DBState σ),
      (getCurrentVersion ctxNone 0 db).1 = .ok 0 →
      (down exec ms ctxNone 0 db).err = some .noMigrations ∧
      (down exec ms ctxNone 0 db).db = db) ∧
    (∀ (σ : Type) (exec : String → σ → Option σ) (ms : List Migration)
        (rows : List Int) (s : σ) (v k : Nat),
      LoadedSet ms → v < ms.length → maxOr0 rows = (v : Int) →
      (∀ x ∈ rows, x ≤ (v : Int)) →
      (∀ w : Nat, w ≤ v → 1 ≤ w → ¬goTrim ((ms.getD w zeroMig).DownSQL) = "") →
      (∀ t s0, (exec t s0).isSome = true) → v < k →
      (steps exec ms ctxNone (-(k : Int)) 0 ⟨some rows, s⟩).err =
          some .noMigrations ∧
      (steps exec ms ctxNone (-(k : Int)) 0 ⟨some rows, s⟩).db.table =
          some (rows.filter (fun x => decide (x ≤ 0)))) := by
  constructor
  · intro σ exec ms db hcv
    have hc : curVer db = 0 := by
      have h0 : (getCurrentVersion ctxNone 0 db).1 = .ok (curVer db) := rfl
      rw [h0] at hcv
      exact Except.ok.inj hcv
    have hg : getCurrentVersion ctxNone (0 + 1) db = (.ok 0, 0 + 1 + 1) := by
      unfold getCurrentVersion
      rw [if_neg (by exact Bool.false_ne_true), hc]
    unfold down
    rw [if_neg (by exact Bool.false_ne_true), hg]
    dsimp only
    rw [if_pos rfl]
    exact ⟨rfl, rfl⟩
  · intro σ exec ms rows s v k hms hv hmax hb hdown hex hvk
    have hg : getCurrentVersion ctxNone (0 + 1) (⟨some rows, s⟩ : DBState σ) =
        (.ok (v : Int), 0 + 1 + 1) := by
      unfold getCurrentVersion
      rw [if_neg (by exact Bool.false_ne_true)]
      unfold curVer
      dsimp only
      rw [hmax]
    unfold steps
    rw [if_neg (by exact Bool.false_ne_true), hg]
    dsimp only
    rw [if_neg (by omega : ¬(0 : Int) < -(k : Int)),
      if_pos (by omega : -(k : Int) < 0)]
    have hkk : (-(-(k : Int))).toNat = k := by omega
    rw [hkk]
    obtain ⟨he, ht⟩ := stepsNeg_out exec ms hms hex v hv hdown k (0 + 1 + 1) rows s
      hb hvk
    exact ⟨he, ht⟩

/-- Witness for C4: `Down()` on an empty tracking table, and `Steps(-3)` from
version 2 of a three-migration set, which rolls back 2 and 1 and then fails,
leaving only version 0 recorded. -/
theorem C4_down_at_zero_and_runs_out_witness :
    ((down (fun _ (s : Unit) => some s) [⟨0, "u", "d"⟩] ctxNone 0
        ⟨some [], ()⟩).err = some .noMigrations ∧
     (down (fun _ (s : Unit) => some s) [⟨0, "u", "d"⟩] ctxNone 0
        ⟨some [], ()⟩).db = ⟨some [], ()⟩) ∧
    ((steps (fun _ (s : Unit) => some s)
        [⟨0, "u", "d"⟩, ⟨1, "u", "d"⟩, ⟨2, "u", "d"⟩] ctxNone (-(3 : Nat) : Int) 0
        ⟨some [0, 1, 2], ()⟩).err = some .noMigrations ∧
     (steps (fun _ (s : Unit) => some s)
        [⟨0, "u", "d"⟩, ⟨1, "u", "d"⟩, ⟨2, "u", "d"⟩] ctxNone (-(3 : Nat) : Int) 0
        ⟨some [0, 1, 2], ()⟩).db.table =
        some (([0, 1, 2] : List Int).filter (fun x => decide (x ≤ 0)))) :=
  ⟨C4_down_at_zero_and_runs_out.1 Unit (fun _ s => some s) [⟨0, "u", "d"⟩]
      ⟨some [], ()⟩ rfl,
   C4_down_at_zero_and_runs_out.2 Unit (fun _ s => some s)
      [⟨0, "u", "d"⟩, ⟨1, "u", "d"⟩, ⟨2, "u", "d"⟩] [0, 1, 2] () 2 3
      rfl (by decide) (by decide) (by decide) (by decide) (fun _ _ => rfl)
      (by decide)⟩

/-- C1: from any starting version in `[0, maxVersion]`, a successful `Up()`
leaves `CurrentVersion()` equal to `maxVersion = len - 1`, and a second `Up()`
from the resulting state succeeds, invokes the Applier zero times, and changes
nothing. -/
theorem C1_up_reaches_max_and_idempotent {σ : Type} (exec : String → σ → Option σ)
    (ms : List Migration) (db : DBState σ) (v : Int)
    (hms : LoadedSet ms)
    (hcv : (getCurrentVersion ctxNone 0 db).1 = .ok v)
    (hv0 : 0 ≤ v) (hv1 : v ≤ (ms.length : Int) - 1)
    (hok : (up exec ms ctxNone 0 db).err = none) :
    (getCurrentVersion ctxNone 0 (up exec ms ctxNone 0 db).db).1 =
      .ok ((ms.length : Int) - 1) ∧
    (up exec ms ctxNone 0 (up exec ms ctxNone 0 db).db).err = none ∧
    (up exec ms ctxNone 0 (up exec ms ctxNone 0 db).db).db =
      (up exec ms ctxNone 0 db).db ∧
    applyCalls (up exec ms ctxNone 0 (up exec ms ctxNone 0 db).db).trace = [] := by
  obtain ⟨tbl, sch⟩ := db
  have hc : curVer ⟨tbl, sch⟩ = v := by
    have h0 : (getCurrentVersion ctxNone 0 (⟨tbl, sch⟩ : DBState σ)).1 =
      .ok (curVer ⟨tbl, sch⟩) := rfl
    rw [h0] at hcv
    exact Except.ok.inj hcv
  have hg : getCurrentVersion ctxNone (0 + 1) (⟨tbl, sch⟩ : DBState σ) =
      (.ok v, 0 + 1 + 1) := by
    unfold getCurrentVersion
    rw [if_neg (by exact Bool.false_ne_true), hc]
  have hup : up exec ms ctxNone 0 ⟨tbl, sch⟩ =
      ⟨(upFrom exec ms ctxNone (ms.length + 1) (v + 1) (0 + 1 + 1) ⟨tbl, sch⟩).err,
        (upFrom exec ms ctxNone (ms.length + 1) (v + 1) (0 + 1 + 1) ⟨tbl, sch⟩).db,
        (upFrom exec ms ctxNone (ms.length + 1) (v + 1) (0 + 1 + 1) ⟨tbl, sch⟩).clock,
        .ctxCheck false ::
          (upFrom exec ms ctxNone (ms.length + 1) (v + 1) (0 + 1 + 1)
            ⟨tbl, sch⟩).trace⟩ := by
    unfold up
    rw [if_neg (by exact Bool.false_ne_true), hg]
  rw [hup] at hok
  dsimp only at hok
  have second : ∀ (db2 : DBState σ), curVer db2 = (ms.length : Int) - 1 →
      (up exec ms ctxNone 0 db2).err = none ∧
      (up exec ms ctxNone 0 db2).db = db2 ∧
      applyCalls (up exec ms ctxNone 0 db2).trace = [] := by
    intro db2 h2
    have hg2 : getCurrentVersion ctxNone (0 + 1) db2 =
        (.ok ((ms.length : Int) - 1), 0 + 1 + 1) := by
      unfold getCurrentVersion
      rw [if_neg (by exact Bool.false_ne_true), h2]
    unfold up
    rw [if_neg (by exact Bool.false_ne_true), hg2]
    dsimp only
    rw [upFrom, if_neg (by omega : ¬(ms.length : Int) - 1 + 1 < (ms.length : Int))]
    exact ⟨rfl, rfl, rfl⟩
  have key : curVer (up exec ms ctxNone 0 ⟨tbl, sch⟩).db = (ms.length : Int) - 1 := by
    rw [hup]
    dsimp only
    cases tbl with
    | none =>
      have hv : v = 0 := by
        unfold curVer at hc
        dsimp only at hc
        omega
      subst hv
      have hlen1 : ms.length = 1 := by
        have hne := loadedSet_ne_nil hms
        have hlen : 1 ≤ ms.length := by
          cases ms with
          | nil => exact absurd rfl hne
          | cons a l => simp
        by_contra hgt
        have h1L : (0 : Int) + 1 < (ms.length : Int) := by omega
        exact upFrom_none_first_err exec ms ctxNone ms.length (0 + 1) (0 + 1 + 1)
          sch (by omega) h1L rfl hok
      rw [upFrom, if_neg (by rw [hlen1]; norm_num)]
      unfold curVer at hc ⊢
      dsimp only at hc ⊢
      omega
    | some rows =>
      have hcr : maxOr0 rows = v := by
        unfold curVer at hc
        dsimp only at hc
        exact hc
      obtain ⟨rows', s', hdbEq, hmax'⟩ := upFrom_ok_max exec ms ctxNone hms
        (ms.length + 1) (v + 1) (0 + 1 + 1) rows sch (by omega) (by omega)
        (by omega) hok
      rw [hdbEq]
      unfold curVer
      dsimp only
      rw [hmax', hcr]
      by_cases hlt : v + 1 < (ms.length : Int)
      · rw [if_pos hlt]
        exact max_eq_right (by omega)
      · rw [if_neg hlt]
        omega
  obtain ⟨h2a, h2b, h2c⟩ := second _ key
  refine ⟨?_, h2a, h2b, h2c⟩
  have h0 : (getCurrentVersion ctxNone 0 (up exec ms ctxNone 0 ⟨tbl, sch⟩).db).1 =
    .ok (curVer (up exec ms ctxNone 0 ⟨tbl, sch⟩).db) := rfl
  rw [h0, key]

/-- Witness for C1: two migrations, starting version 0; `Up()` applies version 1,
reaches `maxVersion = 1`, and a second `Up()` is a successful no-op with zero
Applier invocations. -/
theorem C1_up_reaches_max_and_idempotent_witness :
    (getCurrentVersion ctxNone 0 (up (fun _ (s : Unit) => some s)
        [⟨0, "u0", ""⟩, ⟨1, "u1", "d1"⟩] ctxNone 0 ⟨some [0], ()⟩).db).1 =
      .ok (([⟨0, "u0", ""⟩, ⟨1, "u1", "d1"⟩] : List Migration).length - 1 : Int) ∧
    (up (fun _ (s : Unit) => some s) [⟨0, "u0", ""⟩, ⟨1, "u1", "d1"⟩] ctxNone 0
        (up (fun _ (s : Unit) => some s) [⟨0, "u0", ""⟩, ⟨1, "u1", "d1"⟩] ctxNone 0
          ⟨some [0], ()⟩).db).err = none ∧
    (up (fun _ (s : Unit) => some s) [⟨0, "u0", ""⟩, ⟨1, "u1", "d1"⟩] ctxNone 0
        (up (fun _ (s : Unit) => some s) [⟨0, "u0", ""⟩, ⟨1, "u1", "d1"⟩] ctxNone 0
          ⟨some [0], ()⟩).db).db =
      (up (fun _ (s : Unit) => some s) [⟨0, "u0", ""⟩, ⟨1, "u1", "d1"⟩] ctxNone 0
        ⟨some [0], ()⟩).db ∧
    applyCalls (up (fun _ (s : Unit) => some s) [⟨0, "u0", ""⟩, ⟨1, "u1", "d1"⟩]
        ctxNone 0 (up (fun _ (s : Unit) => some s)
          [⟨0, "u0", ""⟩, ⟨1, "u1", "d1"⟩] ctxNone 0 ⟨some [0], ()⟩).db).trace = [] :=
  C1_up_reaches_max_and_idempotent (fun _ s => some s)
    [⟨0, "u0", ""⟩, ⟨1, "u1", "d1"⟩] ⟨some [0], ()⟩ 0 rfl rfl (by decide)
    (by decide) rfl

/-- C8: with an already-cancelled context every public operation
(`NewMigrator`, `Up`, `Down`, `Steps`, `GetCurrentVersion`) returns a cancellation
error without executing any migration script (the trace holds only the failed
context check); and for every context, in the multi-step runs `Up` and `Steps`
every Applier invocation is immediately preceded by a context check that observed
no cancellation, and once a check observes cancellation it is the last event of
the run — the run stops at a migration boundary with no further script started. -/
theorem C8_context_cancellation :
    (∀ (σ : Type) (db : DBState σ) (clock : Nat),
      (getCurrentVersion ctxTrue clock db).1 = .error .cancelled) ∧
    (∀ (σ : Type) (exec : String → σ → Option σ) (ms : List Migration)
        (db : DBState σ) (clock : Nat),
      (up exec ms ctxTrue clock db).err = some .cancelled ∧
      (up exec ms ctxTrue clock db).db = db ∧
      (up exec ms ctxTrue clock db).trace = [.ctxCheck true]) ∧
    (∀ (σ : Type) (exec : String → σ → Option σ) (ms : List Migration)
        (db : DBState σ) (clock : Nat),
      (down exec ms ctxTrue clock db).err = some .cancelled ∧
      (down exec ms ctxTrue clock db).db = db ∧
      (down exec ms ctxTrue clock db).trace = [.ctxCheck true]) ∧
    (∀ (σ : Type) (exec : String → σ → Option σ) (ms : List Migration)
        (n : Int) (db : DBState σ) (clock : Nat),
      (steps exec ms ctxTrue n clock db).err = some .cancelled ∧
      (steps exec ms ctxTrue n clock db).db = db ∧
      (steps exec ms ctxTrue n clock db).trace = [.ctxCheck true]) ∧
    (∀ (c : Option Unit) (load : LoadResult),
      newMigrator ctxTrue c load = .error .cancelled) ∧
    (∀ (σ : Type) (exec : String → σ → Option σ) (ms : List Migration)
        (ctx : Nat → Bool) (clock : Nat) (db : DBState σ),
      callsChecked (up exec ms ctx clock db).trace = true ∧
      noEventsAfterCancel (up exec ms ctx clock db).trace = true) ∧
    (∀ (σ : Type) (exec : String → σ → Option σ) (ms : List Migration)
        (ctx : Nat → Bool) (n : Int) (clock : Nat) (db : DBState σ),
      callsChecked (steps exec ms ctx n clock db).trace = true ∧
      noEventsAfterCancel (steps exec ms ctx n clock db).trace = true) := by
  refine ⟨fun σ db clock => rfl, fun σ exec ms db clock => ⟨rfl, rfl, rfl⟩,
    fun σ exec ms db clock => ⟨rfl, rfl, rfl⟩,
    fun σ exec ms n db clock => ⟨rfl, rfl, rfl⟩,
    fun c load => rfl, ?_, ?_⟩
  · intro σ exec ms ctx clock db
    unfold up
    cases hc : ctx clock with
    | true => exact ⟨rfl, rfl⟩
    | false =>
      rw [if_neg Bool.false_ne_true]
      cases hcc : ctx (clock + 1) with
      | true =>
        have hgc : getCurrentVersion ctx (clock + 1) db =
            (.error .cancelled, clock + 1 + 1) := by
          unfold getCurrentVersion
          rw [if_pos hcc]
        rw [hgc]
        exact ⟨rfl, rfl⟩
      | false =>
        have hgc : getCurrentVersion ctx (clock + 1) db =
            (.ok (curVer db), clock + 1 + 1) := by
          unfold getCurrentVersion
          rw [if_neg (by rw [hcc]; exact Bool.false_ne_true)]
        rw [hgc]
        dsimp only
        exact ⟨upFrom_ccf exec ms ctx _ _ _ db _,
          upFrom_noEvents exec ms ctx _ _ _ db⟩
  · intro σ exec ms ctx n clock db
    unfold steps
    cases hc : ctx clock with
    | true => exact ⟨rfl, rfl⟩
    | false =>
      rw [if_neg Bool.false_ne_true]
      cases hcc : ctx (clock + 1) with
      | true =>
        have hgc : getCurrentVersion ctx (clock + 1) db =
            (.error .cancelled, clock + 1 + 1) := by
          unfold getCurrentVersion
          rw [if_pos hcc]
        rw [hgc]
        exact ⟨rfl, rfl⟩
      | false =>
        have hgc : getCurrentVersion ctx (clock + 1) db =
            (.ok (curVer db), clock + 1 + 1) := by
          unfold getCurrentVersion
          rw [if_neg (by rw [hcc]; exact Bool.false_ne_true)]
        rw [hgc]
        dsimp only
        by_cases hpos : 0 < n
        · rw [if_pos hpos]
          exact ⟨stepsPos_ccf exec ms ctx _ _ _ _ db _,
            stepsPos_noEvents exec ms ctx _ _ _ _ db⟩
        · rw [if_neg hpos]
          by_cases hneg : n < 0
          · rw [if_pos hneg]
            exact ⟨stepsNeg_ccf exec ms ctx _ _ _ db _,
              stepsNeg_noEvents exec ms ctx _ _ _ db⟩
          · rw [if_neg hneg]
            exact ⟨rfl, rfl⟩

/-- Witness for C8 at concrete inputs: a cancelled context makes `Up` fail
immediately with no script executed, and on a live context a concrete `Up` run
has every Applier invocation guarded by a passed context check. -/
theorem C8_context_cancellation_witness :
    ((up (fun _ (s : Unit) => some s) [⟨0, "u", ""⟩] ctxTrue 0
        ⟨some [], ()⟩).err = some .cancelled ∧
     (up (fun _ (s : Unit) => some s) [⟨0, "u", ""⟩] ctxTrue 0
        ⟨some [], ()⟩).db = ⟨some [], ()⟩ ∧
     (up (fun _ (s : Unit) => some s) [⟨0, "u", ""⟩] ctxTrue 0
        ⟨some [], ()⟩).trace = [.ctxCheck true]) ∧
    callsChecked (up (fun _ (s : Unit) => some s) [⟨0, "u0", ""⟩, ⟨1, "u1", ""⟩]
        ctxNone 0 ⟨some [], ()⟩).trace = true ∧
    noEventsAfterCancel (up (fun _ (s : Unit) => some s)
        [⟨0, "u0", ""⟩, ⟨1, "u1", ""⟩] ctxNone 0 ⟨some [], ()⟩).trace = true :=
  ⟨C8_context_cancellation.2.1 Unit (fun _ s => some s) [⟨0, "u", ""⟩]
      ⟨some [], ()⟩ 0,
   (C8_context_cancellation.2.2.2.2.2.1 Unit (fun _ s => some s)
      [⟨0, "u0", ""⟩, ⟨1, "u1", ""⟩] ctxNone 0 ⟨some [], ()⟩).1,
   (C8_context_cancellation.2.2.2.2.2.1 Unit (fun _ s => some s)
      [⟨0, "u0", ""⟩, ⟨1, "u1", ""⟩] ctxNone 0 ⟨some [], ()⟩).2⟩
